import Mathlib

/-!
Shallow embedding of `ctapipe/io/hdf5tableio.py` (HDF5TableWriter /
HDF5TableReader): schema inference, per-column value transforms, metadata
round-tripping through header attributes, and the row iteration protocol.

Pure Python string operations used by the source (`str.endswith`,
`str.startswith`, slicing `s[:-n]` / `s[n:]`, `str.rpartition`,
`str.split`) are modelled on `String` via its underlying character list.
The transform classes themselves (`QuantityColumnTransform`,
`EnumColumnTransform`, `TimeColumnTransform`, `FixedPointColumnTransform`,
`StringTransform`) and the `TableWriter`/`TableReader` base-class helpers
live in `ctapipe/io/tableio.py`, which is not among the sources given
here; those definitions are modelled from the spec and marked as such.
-/

namespace CtapipeHDF5

/-! ### Python string operations -/

/-- Python `s.endswith(suffix)`. -/
def sEndsWith (s suffix : String) : Bool :=
  suffix.data.isSuffixOf s.data

/-- Python `s.startswith(p)`. -/
def sStartsWith (s p : String) : Bool :=
  p.data.isPrefixOf s.data

/-- Python `s[:-n]` (as used on strings known to end in an `n`-char suffix). -/
def sDropRight (s : String) (n : Nat) : String :=
  ⟨s.data.take (s.data.length - n)⟩

/-- Python `s[n:]`. -/
def sDropLeft (s : String) (n : Nat) : String :=
  ⟨s.data.drop n⟩

/-- Start index of the last occurrence of `pat` in `s`, searching start
positions downwards from `i`. -/
def lastOccAux (pat s : List Char) : Nat → Option Nat
  | 0 => if pat.isPrefixOf s then some 0 else none
  | i + 1 =>
    if pat.isPrefixOf (s.drop (i + 1)) then some (i + 1) else lastOccAux pat s i

/-- Python `s.rpartition(pat)[0]`: the part of `s` before the last
occurrence of `pat`, or `""` if `pat` does not occur. -/
def rpartitionBefore (s pat : String) : String :=
  match lastOccAux pat.data s.data s.data.length with
  | some i => ⟨s.data.take i⟩
  | none => ""

/-- Start index of the first occurrence of `pat` in `s`. -/
def firstOcc (pat : List Char) : List Char → Option Nat
  | [] => if pat.isPrefixOf ([] : List Char) then some 0 else none
  | c :: rest =>
    if pat.isPrefixOf (c :: rest) then some 0
    else (firstOcc pat rest).map (· + 1)

/-- Python `s.split(pat)[0]`: the part of `s` before the first occurrence
of `pat`, or all of `s` if `pat` does not occur. -/
def splitFirstBefore (s pat : String) : String :=
  match firstOcc pat.data s.data with
  | some i => ⟨s.data.take i⟩
  | none => s

/-! ### Lemmas about the string operations -/

theorem sEndsWith_append_self (c s : String) : sEndsWith (c ++ s) s = true := by
  simp only [sEndsWith, String.data_append]
  exact List.isSuffixOf_iff_suffix.mpr (List.suffix_append c.data s.data)

/-- Appending a suffix incomparable with `t` never makes a string end in `t`. -/
theorem sEndsWith_append_eq_false (c : String) {s t : String}
    (h1 : ¬ (t.data <:+ s.data)) (h2 : ¬ (s.data <:+ t.data)) :
    sEndsWith (c ++ s) t = false := by
  simp only [sEndsWith, String.data_append]
  rw [← Bool.not_eq_true, List.isSuffixOf_iff_suffix]
  intro h
  rcases List.suffix_or_suffix_of_suffix h (List.suffix_append c.data s.data) with h3 | h3
  · exact h1 h3
  · exact h2 h3

theorem sDropRight_append (c s : String) :
    sDropRight (c ++ s) s.data.length = c := by
  simp only [sDropRight, String.data_append]
  have hl : (c.data ++ s.data).length - s.data.length = c.data.length := by
    simp
  rw [hl, List.take_left]

theorem lastOccAux_append (pat c : List Char) (hpat : pat ≠ []) :
    ∀ n, c.length ≤ n → lastOccAux pat (c ++ pat) n = some c.length := by
  intro n
  induction n with
  | zero =>
    intro h0
    have hc : c = [] := List.length_eq_zero.mp (Nat.le_zero.mp h0)
    subst hc
    simp [lastOccAux, List.isPrefixOf_iff_prefix]
  | succ i ih =>
    intro hle
    rcases Nat.lt_or_ge c.length (i + 1) with hlt | hge
    · -- the start position i+1 is past the last occurrence
      have hdrop : ¬ pat.isPrefixOf ((c ++ pat).drop (i + 1)) = true := by
        rw [List.isPrefixOf_iff_prefix]
        intro hpre
        have hlen := hpre.length_le
        rw [List.length_drop, List.length_append] at hlen
        have hpos : 0 < pat.length := List.length_pos.mpr hpat
        omega
      rcases Nat.lt_or_ge i c.length with hi | hi
      · -- then c.length = i + 1: this position is exactly the occurrence
        exact absurd (by omega : c.length ≤ i) (Nat.not_le.mpr hi)
      · simp only [lastOccAux]
        rw [if_neg hdrop]
        exact ih hi
    · -- c.length = i + 1: the occurrence starts here
      have heq : c.length = i + 1 := Nat.le_antisymm hle hge
      simp only [lastOccAux]
      rw [← heq, List.drop_left]
      rw [if_pos (List.isPrefixOf_iff_prefix.mpr (List.prefix_refl pat))]

theorem rpartitionBefore_append (c s : String) (hs : s.data ≠ []) :
    rpartitionBefore (c ++ s) s = c := by
  unfold rpartitionBefore
  rw [String.data_append,
    lastOccAux_append s.data c.data hs (c.data ++ s.data).length (by simp)]
  simp only [List.take_left]

/-! ### Data model

Runtime values appearing in container fields, dispatched on by
`HDF5TableWriter._add_column_to_schema` via `isinstance` checks.  Floating
point numbers are modelled as rationals (exact representable precision),
an `astropy.time.Time` instant by its TAI-scale MJD number, and an
`astropy.units.Quantity` by its magnitude together with its unit string. -/

/-- A runtime value of a container field. -/
inductive Value where
  /-- a nested `Container` (ignored by the schema builder) -/
  | containerV : Value
  /-- a `Map` of containers (ignored by the schema builder) -/
  | mapV : Value
  /-- an `enum.Enum` member: the name of its enum class and its integer code -/
  | enumV (enumName : String) (code : ℚ) : Value
  /-- an `astropy.units.Quantity`: magnitude and unit string -/
  | quantityV (mag : ℚ) (unit : String) : Value
  /-- a `numpy.ndarray` with dtype name, shape and (flattened) data -/
  | arrayV (dtype : String) (shape : List Nat) (data : List ℚ) : Value
  /-- an `astropy.time.Time` instant, as its TAI-scale MJD number -/
  | timeV (mjdTai : ℚ) : Value
  /-- a native scalar with its Python type name (`int`, `float64`, ...) -/
  | scalarV (typename : String) (x : ℚ) : Value
  /-- a Python `str` -/
  | strV (s : String) : Value
  deriving DecidableEq, Repr

/-- Python exception kinds raised by the modelled code paths. -/
inductive PyErr where
  | valueError (msg : String) : PyErr
  | keyError (msg : String) : PyErr
  | ioError (msg : String) : PyErr
  | typeError (msg : String) : PyErr
  | noSuchNode (msg : String) : PyErr
  | transformError (msg : String) : PyErr
  deriving DecidableEq, Repr

/-- Values storable in a table header attribute. -/
inductive AttrVal where
  | strA (s : String) : AttrVal
  | intA (i : Int) : AttrVal
  | ratA (q : ℚ) : AttrVal
  deriving DecidableEq, Repr

/-- Structured log messages (`self.log.debug/warning/error` calls of the
writer and reader). -/
inductive LogMsg where
  | debugSkipSub (table name : String)
  | debugSkipMap (table name : String)
  | debugExcluded (table name : String)
  | warnDuplicate (name : String)
  | debugAddedCol (table name : String)
  | warnNotWritable (table colname container : String)
  | errorWritingCol (colname container : String)
  | warnMissingCol (table colname container : String)
  | debugColNotInContainer (table colname container : String)
  | debugUnmappedCol (table colname : String)
  deriving DecidableEq, Repr

/-- Whether a log message is emitted at warning level. -/
def LogMsg.isWarning : LogMsg → Bool
  | .warnDuplicate _ => true
  | .warnNotWritable _ _ _ => true
  | .warnMissingCol _ _ _ => true
  | _ => false

/-- Whether a log message is emitted at error level. -/
def LogMsg.isError : LogMsg → Bool
  | .errorWritingCol _ _ => true
  | _ => false

/-- `PYTABLES_TYPE_MAP` of `hdf5tableio.py`: Python type name to pytables
column class. -/
def PYTABLES_TYPE_MAP : List (String × String) :=
  [("float", "Float64Col"), ("float64", "Float64Col"), ("float32", "Float32Col"),
   ("float16", "Float16Col"), ("int8", "Int8Col"), ("int16", "Int16Col"),
   ("int32", "Int32Col"), ("int64", "Int64Col"), ("int", "Int64Col"),
   ("uint8", "UInt8Col"), ("uint16", "UInt16Col"), ("uint32", "UInt32Col"),
   ("uint64", "UInt64Col"), ("bool", "BoolCol"), ("bool_", "BoolCol")]

/-- `ALLOWED_SUFFIXES` of `hdf5tableio.py` (the set the reader's metadata
partition knows about). -/
def ALLOWED_SUFFIXES : List String :=
  ["_DESC", "_ENUM", "_TIME_FORMAT", "_TIME_SCALE", "_TRANSFORM",
   "_TRANSFORM_SCALE", "_UNIT"]

/-- `get_hdf5_attr` of `hdf5tableio.py`: attribute lookup with default. -/
def get_hdf5_attr (attrs : List (String × AttrVal)) (name : String)
    (default : AttrVal) : AttrVal :=
  match attrs.lookup name with
  | some v => v
  | none => default

/-- Python `dict` update of a single key: overwrite in place if the key is
present (dicts keep the original insertion position), else append. -/
def updateAttr : List (String × AttrVal) → String → AttrVal → List (String × AttrVal)
  | [], k, v => [(k, v)]
  | (k1, v1) :: rest, k, v =>
    if k1 = k then (k, v) :: rest else (k1, v1) :: updateAttr rest k v

/-- Python `dict.update` over a list of pairs. -/
def updateAttrs (m : List (String × AttrVal)) (new : List (String × AttrVal)) :
    List (String × AttrVal) :=
  new.foldl (fun acc kv => updateAttr acc kv.1 kv.2) m

/-- UTF-8 encoded byte length of a string (`len(value.encode("utf-8"))`). -/
def utf8Len (s : String) : Nat :=
  (s.data.map Char.utf8Size).sum

/-- Python `x or y` for an optional numeric `x` (`None` and `0` are falsy). -/
def pyOrNat (x : Option Nat) (y : Nat) : Nat :=
  match x with
  | some n => if n = 0 then y else n
  | none => y

/-- Greedy truncation of a character list to at most `n` UTF-8 bytes. -/
def utf8TruncAux : List Char → Nat → List Char
  | [], _ => []
  | c :: cs, n =>
    if c.utf8Size ≤ n then c :: utf8TruncAux cs (n - c.utf8Size) else []

/-- Modelled from the spec: the fixed-width encode step of `StringTransform`
(from `ctapipe/io/tableio.py`, not under `src/`): "encode to a fixed-width
byte string of a declared maximum length"; bytes beyond the column width are
cut off by the storage engine. -/
def utf8Truncate (s : String) (n : Nat) : String :=
  ⟨utf8TruncAux s.data n⟩

theorem utf8Truncate_of_le (s : String) (n : Nat) (h : utf8Len s ≤ n) :
    utf8Truncate s n = s := by
  suffices haux : ∀ (l : List Char) (m : Nat), (l.map Char.utf8Size).sum ≤ m →
      utf8TruncAux l m = l by
    have := haux s.data n h
    unfold utf8Truncate
    rw [this]
  intro l
  induction l with
  | nil => intro m _; rfl
  | cons c cs ih =>
    intro m hm
    simp only [List.map_cons, List.sum_cons] at hm
    have hc : c.utf8Size ≤ m := le_trans (Nat.le_add_right _ _) hm
    simp only [utf8TruncAux, if_pos hc]
    rw [ih (m - c.utf8Size) (by omega)]

/-- `ctapipe.__version__` as recorded in the `CTAPIPE_VERSION` attribute
(opaque version string). -/
def CTAPIPE_VERSION : String := "ctapipe-version"

/-! ### Units

Modelled from the spec: unit conversion of `astropy.units` (an external
collaborator).  Each unit string has a fixed positive scale to a base unit;
converting a magnitude from unit `a` to unit `b` multiplies by the ratio of
the scales.  The concrete table covers the units used in the spec examples;
every unknown unit has scale 1. -/

/-- Scale of a unit string relative to a fixed base unit. -/
def unitFactor (u : String) : ℚ :=
  if u = "TeV" then 1000
  else if u = "GeV" then 1
  else if u = "MeV" then 1 / 1000
  else if u = "km" then 1000
  else if u = "m" then 1
  else if u = "cm" then 1 / 100
  else 1

theorem unitFactor_pos (u : String) : 0 < unitFactor u := by
  unfold unitFactor
  repeat' split
  all_goals norm_num

/-- Modelled from the spec: `Quantity.to_value(unit)` — the magnitude of a
quantity expressed in the target unit. -/
def convertUnit (mag : ℚ) (fromU toU : String) : ℚ :=
  mag * unitFactor fromU / unitFactor toU

/-- Equality as `astropy` compares values: quantities are equal when they
denote the same physical quantity (possibly in different units); all other
values compare structurally. -/
def Value.equiv : Value → Value → Prop
  | .quantityV m a, .quantityV n b => m * unitFactor a = n * unitFactor b
  | v, w => v = w

/-! ### Column transforms

Modelled from the spec: the transform classes of `ctapipe/io/tableio.py`
(not under `src/`): `EnumColumnTransform`, `QuantityColumnTransform`,
`TimeColumnTransform`, `FixedPointColumnTransform`, `StringTransform`; each
is "a named, invertible (write-direction, read-direction) value conversion,
parameterized by data discovered at schema-build time". -/

/-- A per-column value transform. -/
inductive ColumnTransform where
  | enumTr (enumName : String) : ColumnTransform
  | quantityTr (unit : String) : ColumnTransform
  | timeTr (scale fmt : String) : ColumnTransform
  | fixedPointTr (scale offset : ℚ) (sourceDtype targetDtype : String) : ColumnTransform
  | stringTr (maxlen : Nat) : ColumnTransform
  deriving DecidableEq, Repr

/-- Modelled from the spec: write-direction application of a transform
(`__call__` of the transform classes in `ctapipe/io/tableio.py`). -/
def ColumnTransform.fwd : ColumnTransform → Value → Except PyErr Value
  | .enumTr _, .enumV _ code => .ok (.scalarV "int" code)
  | .quantityTr u, .quantityV m a => .ok (.scalarV "float64" (convertUnit m a u))
  | .timeTr _ _, .timeV x => .ok (.scalarV "float64" x)
  | .stringTr n, .strV s => .ok (.strV (utf8Truncate s n))
  | .fixedPointTr sc off _ td, .scalarV _ x => .ok (.scalarV td (x * sc + off))
  | _, _ => .error (.transformError "value does not match transform")

/-- Modelled from the spec: read-direction (inverse) application of a
transform, driven purely by data persisted in header attributes. -/
def ColumnTransform.inv : ColumnTransform → Value → Except PyErr Value
  | .enumTr e, .scalarV _ code => .ok (.enumV e code)
  | .quantityTr u, .scalarV _ x => .ok (.quantityV x u)
  | .timeTr _ _, .scalarV _ x => .ok (.timeV x)
  | .stringTr _, .strV s => .ok (.strV s)
  | .fixedPointTr sc off sd _, .scalarV _ x => .ok (.scalarV sd ((x - off) / sc))
  | _, _ => .error (.transformError "value does not match transform")

/-- Modelled from the spec: `get_meta` of the transform classes — the
transform-specific header attributes, under the naming convention
`{colname}_{SUFFIX}` of the spec's metadata table. -/
def transformMeta (name : String) : ColumnTransform → List (String × AttrVal)
  | .quantityTr u => [(name ++ "_UNIT", .strA u)]
  | .enumTr e => [(name ++ "_ENUM", .strA e)]
  | .timeTr sc f =>
    [(name ++ "_TIME_SCALE", .strA sc), (name ++ "_TIME_FORMAT", .strA f)]
  | .fixedPointTr sc off sd _ =>
    [(name ++ "_TRANSFORM_SCALE", .ratA sc),
     (name ++ "_TRANSFORM_OFFSET", .ratA off),
     (name ++ "_TRANSFORM_DTYPE", .strA sd)]
  | .stringTr n =>
    [(name ++ "_TRANSFORM", .strA "string"), (name ++ "_MAXLEN", .intA n)]

/-- Modelled from the spec: the per-(table, column) transform registry of the
`TableWriter`/`TableReader` base class.  Registering appends to the column's
chain; application runs the chain in registration order ("custom, then
automatic"). -/
def applyChainFwd (trs : List (String × ColumnTransform)) (name : String)
    (v : Value) : Except PyErr Value :=
  (trs.filter (fun p => p.1 = name)).foldlM (fun acc p => p.2.fwd acc) v

/-- Modelled from the spec: read-direction application of a column's
registered transform chain (`TableReader._apply_col_transform`). -/
def applyChainInv (trs : List (String × ColumnTransform)) (name : String)
    (v : Value) : Except PyErr Value :=
  (trs.filter (fun p => p.1 = name)).foldlM (fun acc p => p.2.inv acc) v

/-! ### Writer -/

/-- `ctapipe.core.Field`: the per-field declaration surface the writer
consumes (`field.unit`, `field.max_length`, `field.description`). -/
structure Field where
  unit : Option String := none
  max_length : Option Nat := none
  description : String := ""
  deriving DecidableEq, Repr

/-- One column of a pytables schema description (a `tables.Col` instance:
its class, shape, ordinal position, and byte width for strings). -/
structure ColDesc where
  coltype : String
  shape : List Nat := []
  pos : Option Nat := none
  itemsize : Option Nat := none
  deriving DecidableEq, Repr

/-- A live container instance as the writer consumes it: class name, the
ordered `(column name, field, value)` triples produced by
`container.items(add_prefix)` zipped with `container.fields.values()`
(column names already carry the container prefix when `add_prefix` is set),
and the free-form `container.meta` mapping. -/
structure ContainerInstance where
  clsName : String
  items : List (String × Field × Value)
  meta : List (String × AttrVal) := []

/-- Generic Python `dict` single-key update (overwrite in place or append). -/
def updMap {α : Type} : List (String × α) → String → α → List (String × α)
  | [], k, v => [(k, v)]
  | (k1, v1) :: rest, k, v =>
    if k1 = k then (k, v) :: rest else (k1, v1) :: updMap rest k v

/-- An HDF5 table node: column descriptions, header attributes, stored rows
(each row holds a value for every column), and title. -/
structure TableOnDisk where
  colsDesc : List (String × ColDesc)
  attrs : List (String × AttrVal)
  rows : List (List (String × Value))
  title : String := ""
  deriving DecidableEq, Repr

/-- State accumulated by `_create_hdf5_table_schema` while processing the
fields of the containers: the pytables `Schema` class columns, the extra
metadata dictionary, the per-table transform registry
(`self._transforms[table_name]`, a chain per column), and the log. -/
structure SchemaBuildState where
  columns : List (String × ColDesc)
  meta : List (String × AttrVal)
  transforms : List (String × ColumnTransform)
  log : List LogMsg

/-- The automatic enum transform step of `_add_column_to_schema`
(`isinstance(value, enum.Enum)`): replace the member by its code and
produce the transform to register. -/
def autoEnumStep (name : String) (v : Value) :
    Value × List (String × ColumnTransform) :=
  match v with
  | .enumV e c => (.scalarV "int" c, [(name, .enumTr e)])
  | w => (w, [])

/-- The automatic quantity transform step of `_add_column_to_schema`
(`isinstance(value, Quantity)`; `unit = field.unit or value.unit`). -/
def autoQuantStep (name : String) (field : Field) (v : Value) :
    Value × List (String × ColumnTransform) :=
  match v with
  | .quantityV m a =>
    let u := field.unit.getD a
    (.scalarV "float64" (convertUnit m a u), [(name, .quantityTr u)])
  | w => (w, [])

/-- The storage-kind dispatch of `_add_column_to_schema` (the
`ndarray` / `Time` / `PYTABLES_TYPE_MAP` / `str` / `else raise` chain):
the column description plus any transform to register. -/
def storageDispatch (name : String) (pos : Nat) (field : Field) (v : Value) :
    Except PyErr ((String × ColDesc) × List (String × ColumnTransform)) :=
  match v with
  | .arrayV dty sh _ =>
    match PYTABLES_TYPE_MAP.lookup dty with
    | some ct => .ok ((name, { coltype := ct, shape := sh, pos := some pos }), [])
    | none => .error (.keyError dty)
  | .timeV _ =>
    .ok ((name, { coltype := "Float64Col", pos := some pos }),
      [(name, .timeTr "tai" "mjd")])
  | .scalarV ty _ =>
    match PYTABLES_TYPE_MAP.lookup ty with
    | some ct => .ok ((name, { coltype := ct, pos := some pos }), [])
    | none => .error (.valueError "column type not writable")
  | .strV s =>
    let max_length := pyOrNat field.max_length (utf8Len s)
    .ok ((name, { coltype := "StringCol", itemsize := some max_length }),
      [(name, .stringTr max_length)])
  | _ => .error (.valueError "column type not writable")

/-- `HDF5TableWriter._add_column_to_schema`.  `excl` is the caller-supplied
exclusion predicate (`self._is_column_excluded`, from the base class).  In
the modelled value space no registry or schema mutation precedes a raise,
so the error case returns no state. -/
def add_column_to_schema (excl : String → String → Bool) (tableName : String)
    (st : SchemaBuildState) (pos : Nat) (field : Field) (name : String)
    (value : Value) : Except PyErr SchemaBuildState :=
  match value with
  | .containerV => .ok { st with log := st.log ++ [.debugSkipSub tableName name] }
  | .mapV => .ok { st with log := st.log ++ [.debugSkipMap tableName name] }
  | v0 =>
    if excl tableName name then
      .ok { st with log := st.log ++ [.debugExcluded tableName name] }
    else if (st.columns.lookup name).isSome then
      .ok { st with log := st.log ++ [.warnDuplicate name] }
    else
      -- apply any user-defined transforms first
      match applyChainFwd st.transforms name v0 with
      | .error e => .error e
      | .ok v1 =>
        let enumStep := autoEnumStep name v1
        let quantStep := autoQuantStep name field enumStep.1
        let autoTrs := enumStep.2 ++ quantStep.2
        match storageDispatch name pos field quantStep.1 with
        | .error e => .error e
        | .ok (col, dispTrs) =>
          let newTrs := st.transforms ++ autoTrs ++ dispTrs
          -- add meta fields of the transform (`self._transforms[table_name].get(name)`)
          let metaWithTr :=
            match (newTrs.filter (fun p => p.1 = name)).getLast? with
            | some p => updateAttrs st.meta (transformMeta name p.2)
            | none => st.meta
          let metaFinal :=
            updateAttr metaWithTr (name ++ "_DESC") (.strA field.description)
          .ok { columns := st.columns ++ [col],
                meta := metaFinal,
                transforms := newTrs,
                log := st.log ++ [.debugAddedCol tableName name] }

/-- Inner loop of `_create_hdf5_table_schema` over one container's items:
each successful or skipped column advances the position counter; a
`ValueError` is converted into a skip-with-warning without advancing it;
other exceptions propagate (preserving the state mutated so far). -/
def schemaAddItems (excl : String → String → Bool) (tableName clsName : String) :
    SchemaBuildState × Nat → List (String × Field × Value) →
    (SchemaBuildState × Nat) × Option PyErr
  | acc, [] => (acc, none)
  | (st, pos), (colName, field, value) :: rest =>
    match add_column_to_schema excl tableName st pos field colName value with
    | .ok st1 => schemaAddItems excl tableName clsName (st1, pos + 1) rest
    | .error (.valueError _) =>
      schemaAddItems excl tableName clsName
        ({ st with log := st.log ++ [.warnNotWritable tableName colName clsName] },
          pos) rest
    | .error e => ((st, pos), some e)

/-- Outer loop of `_create_hdf5_table_schema` over the containers, keeping
one running position counter across merged containers
(`container.validate()` is assumed to succeed). -/
def schemaAddContainers (excl : String → String → Bool) (tableName : String) :
    SchemaBuildState × Nat → List ContainerInstance →
    (SchemaBuildState × Nat) × Option PyErr
  | acc, [] => (acc, none)
  | acc, c :: rest =>
    match schemaAddItems excl tableName c.clsName acc c.items with
    | (acc1, none) => schemaAddContainers excl tableName acc1 rest
    | (acc1, some e) => (acc1, some e)

/-- `HDF5TableWriter` instance state: `self._schemas`, `self._tables`
(table name to file path), the per-table transform registries, the open
file's nodes by path, the group prefix, the exclusion patterns and the log. -/
structure WriterState where
  schemas : List (String × List (String × ColDesc))
  tables : List (String × String)
  transforms : List (String × List (String × ColumnTransform))
  file : List (String × TableOnDisk)
  group : String
  excl : String → String → Bool
  log : List LogMsg

/-- `HDF5TableWriter.__init__`: only modes `a`, `w`, `r+` are supported,
anything else raises `IOError` before the file is opened.  Mode `w`
truncates the file, the append modes keep the existing nodes.  User column
transforms registered on the writer are passed in as explicit per-table
chains (`_realize_regexp_transforms` is modelled as already resolved). -/
def HDF5TableWriter_init (mode : String) (group_name : String)
    (excl : String → String → Bool)
    (userTransforms : List (String × List (String × ColumnTransform)))
    (existingFile : List (String × TableOnDisk)) : Except PyErr WriterState :=
  if mode = "a" ∨ mode = "w" ∨ mode = "r+" then
    .ok { schemas := [], tables := [], transforms := userTransforms,
          file := if mode = "w" then [] else existingFile,
          group := "/" ++ group_name, excl := excl, log := [] }
  else
    .error (.ioError "The mode is not supported for writing")

/-- The file path of a table: `PurePath(self._group) / PurePath(table_name)`
(the source recombines the joined path from its parent and stem; for table
names without a trailing dot-suffix that is the plain join modelled here). -/
def tablePath (group tableName : String) : String :=
  if sEndsWith group "/" then group ++ tableName else group ++ "/" ++ tableName

/-- `HDF5TableWriter._setup_new_table`: build the schema (which registers
`self._schemas[table_name]` and the transforms before the leading-slash
check), reject table names starting with `/`, merge the containers'
free-form metadata, then create the table node with its header attributes —
unless a node already exists at that path, which is reused as-is. -/
def setup_new_table (w : WriterState) (tableName : String)
    (containers : List ContainerInstance) : WriterState × Option PyErr :=
  let init : SchemaBuildState :=
    { columns := [], meta := [],
      transforms := (w.transforms.lookup tableName).getD [], log := [] }
  match schemaAddContainers w.excl tableName (init, 0) containers with
  | ((st, _), some e) =>
    ({ w with transforms := updMap w.transforms tableName st.transforms,
              log := w.log ++ st.log }, some e)
  | ((st, _), none) =>
    let meta0 := updateAttr st.meta "CTAPIPE_VERSION" (.strA CTAPIPE_VERSION)
    let w1 := { w with
      schemas := updMap w.schemas tableName st.columns,
      transforms := updMap w.transforms tableName st.transforms,
      log := w.log ++ st.log }
    if sStartsWith tableName "/" then
      (w1, some (.valueError "Table name must not start with /"))
    else
      let path := tablePath w1.group tableName
      let metaAll := containers.foldl (fun acc c => updateAttrs acc c.meta) meta0
      match w1.file.lookup path with
      | none =>
        let tab : TableOnDisk :=
          { colsDesc := st.columns, attrs := metaAll, rows := [],
            title := "Storage of " ++
              String.intercalate "," (containers.map (fun c => c.clsName)) }
        ({ w1 with file := updMap w1.file path tab,
                   tables := updMap w1.tables tableName path }, none)
      | some _ =>
        ({ w1 with tables := updMap w1.tables tableName path }, none)

/-- Zero-fill default the storage engine supplies for a column the row
buffer never assigned. -/
def rowDefault (cd : ColDesc) : Value :=
  if cd.coltype = "StringCol" then .strV ""
  else if cd.shape = [] then .scalarV cd.coltype 0
  else .arrayV cd.coltype cd.shape (List.replicate (cd.shape.foldl (· * ·) 1) 0)

/-- Inner loop of `_append_row` over one container's fields that are table
columns: apply the column's registered transform chain and place the result
in the row buffer; a raising transform aborts the append after an
error-level log naming the column and the container. -/
def appendRowItems (trs : List (String × ColumnTransform)) (clsName : String)
    (buffer : List (String × Value)) :
    List (String × Value) → List (String × Value) × Option (LogMsg × PyErr)
  | [] => (buffer, none)
  | (colname, value) :: rest =>
    match applyChainFwd trs colname value with
    | .ok v => appendRowItems trs clsName (updMap buffer colname v) rest
    | .error e => (buffer, some (.errorWritingCol colname clsName, e))

/-- Loop of `_append_row` over the containers. -/
def appendRowContainers (trs : List (String × ColumnTransform))
    (colnames : List String) (buffer : List (String × Value)) :
    List ContainerInstance → List (String × Value) × Option (LogMsg × PyErr)
  | [] => (buffer, none)
  | c :: rest =>
    let selected := (c.items.map (fun it => (it.1, it.2.2))).filter
      (fun kv => colnames.contains kv.1)
    match appendRowItems trs c.clsName buffer selected with
    | (buf1, none) => appendRowContainers trs colnames buf1 rest
    | (buf1, some le) => (buf1, some le)

/-- `HDF5TableWriter._append_row`: fill a fresh row buffer from all
containers, then commit it (`row.append()`) only after every contributing
field succeeded; on a transform error the row is abandoned uncommitted and
the exception re-raised after logging. -/
def append_row (w : WriterState) (tableName : String)
    (containers : List ContainerInstance) : WriterState × Option PyErr :=
  match w.tables.lookup tableName with
  | none => (w, some (.keyError tableName))
  | some path =>
    match w.file.lookup path with
    | none => (w, some (.keyError path))
    | some tab =>
      let trs := (w.transforms.lookup tableName).getD []
      let colnames := tab.colsDesc.map (fun nc => nc.1)
      match appendRowContainers trs colnames [] containers with
      | (_, some (lm, e)) => ({ w with log := w.log ++ [lm] }, some e)
      | (buffer, none) =>
        let committed := tab.colsDesc.map (fun nc =>
          (nc.1, (buffer.lookup nc.1).getD (rowDefault nc.2)))
        let tab1 := { tab with rows := tab.rows ++ [committed] }
        ({ w with file := updMap w.file path tab1 }, none)

/-- `HDF5TableWriter.write`: first write to a table name sets up schema and
table; every write (including the first) appends one row. -/
def write (w : WriterState) (tableName : String)
    (containers : List ContainerInstance) : WriterState × Option PyErr :=
  if (w.schemas.lookup tableName).isSome then append_row w tableName containers
  else
    match setup_new_table w tableName containers with
    | (w1, some e) => (w1, some e)
    | (w1, none) => append_row w1 tableName containers

/-- A sequence of `write` calls to one table name, stopping at the first
raised exception. -/
def writeAll (w : WriterState) (tableName : String) :
    List (List ContainerInstance) → WriterState × Option PyErr
  | [] => (w, none)
  | cs :: rest =>
    match write w tableName cs with
    | (w1, none) => writeAll w1 tableName rest
    | (w1, some e) => (w1, some e)

/-! ### Reader -/

/-- A container *class* as the reader consumes it: class name, declared
field names (`cls.fields`) and the class default prefix. -/
structure ContainerType where
  clsName : String
  fields : List String
  defaultPfx : String := ""
  deriving DecidableEq, Repr

/-- How a record field was initialized while materializing a row: from a
table column (through the reconstructed transform), set to `None` because
its column is missing, or left to the field's declared default because the
reader ignores it. -/
inductive FieldInit where
  | fromTable (v : Value) : FieldInit
  | noneInit : FieldInit
  | defaultInit : FieldInit
  deriving DecidableEq, Repr

/-- A freshly constructed container instance yielded by
`HDF5TableReader.read` (`cls(**kwargs, prefix=prefix)` plus its metadata). -/
structure Record where
  clsName : String
  pfx : String
  fields : List (String × FieldInit)
  meta : List (String × AttrVal)
  deriving DecidableEq, Repr

/-- One item of the `read` generator: a single record when one container
class was requested, else the tuple of records for one row. -/
inductive ReadItem where
  | single (r : Record) : ReadItem
  | tuple (rs : List Record) : ReadItem
  deriving DecidableEq, Repr

/-- `HDF5TableReader` instance state: the open file's nodes, the set-up
table names (`self._tables`), `self._cols_to_read`, `self._missing_cols`,
`self._meta` (per table, per container class name), the per-table
reconstructed transform registries, and the log. -/
structure ReaderState where
  file : List (String × TableOnDisk)
  tables : List String
  cols_to_read : List (String × List String)
  missing_cols : List (String × List (List String))
  metaTables : List (String × List (String × List (String × AttrVal)))
  transforms : List (String × List (String × ColumnTransform))
  log : List LogMsg

/-- `HDF5TableReader.__init__` (file opened read-only, all caches empty). -/
def HDF5TableReader_init (file : List (String × TableOnDisk)) : ReaderState :=
  { file := file, tables := [], cols_to_read := [], missing_cols := [],
    metaTables := [], transforms := [], log := [] }

/-- Strip the container prefix from a column name when comparing
(`colname[len(prefix) + 1 :]` when `prefix` is truthy and matches). -/
def stripPfx (pfx colname : String) : String :=
  if pfx ≠ "" ∧ sStartsWith colname pfx = true then
    sDropLeft colname (pfx.data.length + 1)
  else colname

/-- Attach the container prefix to a field name (`f"{prefix}_{colname}"`
when `prefix` is truthy). -/
def addPfx (pfx colname : String) : String :=
  if pfx = "" then colname else pfx ++ "_" ++ colname

/-- First loop of `_map_table_to_containers` for one container: walk the
table's columns, collecting those whose (prefix-stripped) name is a
declared field; others are logged at debug level. -/
def mapTableCols (tableName : String) (ctr : ContainerType) (pfx : String) :
    List String × List LogMsg → List String → List String × List LogMsg
  | acc, [] => acc
  | (cols, log), colname :: rest =>
    let cw := stripPfx pfx colname
    if ctr.fields.contains cw then
      mapTableCols tableName ctr pfx (cols ++ [colname], log) rest
    else
      mapTableCols tableName ctr pfx
        (cols, log ++ [.debugColNotInContainer tableName cw ctr.clsName]) rest

/-- Second loop of `_map_table_to_containers` for one container: walk the
declared fields (outside the ignore-list); a field whose (prefix-attached)
column name was not collected is recorded as missing, with a warning. -/
def mapMissingFields (tableName : String) (ctr : ContainerType) (pfx : String)
    (ignore : List String) (cols : List String) :
    List String × List LogMsg → List String → List String × List LogMsg
  | acc, [] => acc
  | (miss, log), f :: rest =>
    if ignore.contains f then
      mapMissingFields tableName ctr pfx ignore cols (miss, log) rest
    else
      let cwp := addPfx pfx f
      if cols.contains cwp then
        mapMissingFields tableName ctr pfx ignore cols (miss, log) rest
      else
        mapMissingFields tableName ctr pfx ignore cols
          (miss ++ [f], log ++ [.warnMissingCol tableName cwp ctr.clsName]) rest

/-- Per-container body of `_map_table_to_containers`, threading the live
`self._cols_to_read[table_name]` list across containers. -/
def mapContainersLoop (tableName : String) (colnames : List String)
    (ignore : List String) :
    List String × List (List String) × List LogMsg →
    List (ContainerType × String) → List String × List (List String) × List LogMsg
  | acc, [] => acc
  | (cols, missing, log), (ctr, pfx) :: rest =>
    let r1 := mapTableCols tableName ctr pfx (cols, log) colnames
    let r2 := mapMissingFields tableName ctr pfx ignore r1.1 ([], r1.2) ctr.fields
    mapContainersLoop tableName colnames ignore
      (r1.1, missing ++ [r2.1], r2.2) rest

/-- `HDF5TableReader._map_table_to_containers`: identify which table
columns to read into which containers; afterwards log (debug) every table
column that maps to no requested container. -/
def map_table_to_containers (tableName : String) (colnames : List String)
    (pairs : List (ContainerType × String)) (ignore : List String) :
    List String × List (List String) × List LogMsg :=
  let r := mapContainersLoop tableName colnames ignore ([], [], []) pairs
  let finalLog := colnames.foldl (fun log colname =>
    if r.1.contains colname then log
    else log ++ [.debugUnmappedCol tableName colname]) r.2.2
  (r.1, r.2.1, finalLog)

/-- The `_is_allowed` helper of `_handle_metadata`: prepend the container
prefix to the attribute key, then for each allowed suffix take the part of
the key before the suffix's first occurrence (`key.split(suffix)`) and test
membership among the declared field names. -/
def is_allowed (key : String) (ctr : ContainerType) (pfx : String) : Bool :=
  let key1 := if pfx = "" then key else pfx ++ "_" ++ key
  ALLOWED_SUFFIXES.any (fun suffix => ctr.fields.contains (splitFirstBefore key1 suffix))

/-- First phase of `_handle_metadata` for one container: collect the header
attributes allowed for it (these keys are recorded as used). -/
def handleMetaContainer (attrs : List (String × AttrVal)) (ctr : ContainerType)
    (pfx : String) : List (String × AttrVal) :=
  attrs.foldl (fun acc kv => if is_allowed kv.1 ctr pfx then acc ++ [kv] else acc) []

/-- The `used_keys` list of `_handle_metadata`: every attribute key some
requested container's `_is_allowed` test accepted. -/
def usedKeys (attrs : List (String × AttrVal))
    (pairs : List (ContainerType × String)) : List String :=
  (pairs.map (fun p =>
    (attrs.filter (fun kv => is_allowed kv.1 p.1 p.2)).map (fun kv => kv.1))).flatten

/-- `HDF5TableReader._handle_metadata`: per requested container collect its
allowed attributes; every attribute used by no container is then attached
to every requested container. -/
def handle_metadata (attrs : List (String × AttrVal))
    (pairs : List (ContainerType × String)) :
    List (String × List (String × AttrVal)) :=
  let perCtr := pairs.map (fun p => (p.1.clsName, handleMetaContainer attrs p.1 p.2))
  perCtr.map (fun q =>
    (q.1, q.2 ++ attrs.filter (fun kv => !(usedKeys attrs pairs).contains kv.1)))

/-- Body of `_map_transforms_from_table_header` for one header attribute:
reconstruct a read-direction transform purely from the attribute's
name-suffix and persisted values, and register it for the decoded column
name. -/
def mapTransformsAttr (colsDesc : List (String × ColDesc))
    (attrs : List (String × AttrVal)) (trs : List (String × ColumnTransform))
    (kv : String × AttrVal) : Except PyErr (List (String × ColumnTransform)) :=
  let attr := kv.1
  if sEndsWith attr "_UNIT" then
    let colname := sDropRight attr 5
    match kv.2 with
    | .strA u => .ok (trs ++ [(colname, .quantityTr u)])
    | _ => .error (.typeError "unit attribute is not a string")
  else if sEndsWith attr "_ENUM" then
    let colname := sDropRight attr 5
    match kv.2 with
    | .strA e => .ok (trs ++ [(colname, .enumTr e)])
    | _ => .error (.typeError "enum attribute is not an enum type")
  else if sEndsWith attr "_TIME_SCALE" then
    let colname := rpartitionBefore attr "_TIME_SCALE"
    match kv.2, get_hdf5_attr attrs (colname ++ "_TIME_FORMAT") (.strA "mjd") with
    | .strA scale, .strA fmt => .ok (trs ++ [(colname, .timeTr scale fmt)])
    | _, _ => .error (.typeError "time attributes are not strings")
  else if sEndsWith attr "_TRANSFORM_SCALE" then
    let colname := rpartitionBefore attr "_TRANSFORM_SCALE"
    match colsDesc.lookup colname with
    | none => .error (.keyError colname)
    | some cd =>
      let scale : ℚ := match kv.2 with
        | .ratA q => q
        | .intA i => (i : ℚ)
        | .strA _ => 0
      let offset : ℚ :=
        match get_hdf5_attr attrs (colname ++ "_TRANSFORM_OFFSET") (.intA 0) with
        | .ratA q => q
        | .intA i => (i : ℚ)
        | .strA _ => 0
      let sd : String :=
        match get_hdf5_attr attrs (colname ++ "_TRANSFORM_DTYPE") (.strA "float32") with
        | .strA s => s
        | _ => "float32"
      .ok (trs ++ [(colname, .fixedPointTr scale offset sd cd.coltype)])
  else if sEndsWith attr "_TRANSFORM" then
    let colname := rpartitionBefore attr "_TRANSFORM"
    if kv.2 = AttrVal.strA "string" then
      match attrs.lookup (colname ++ "_MAXLEN") with
      | some (.intA n) => .ok (trs ++ [(colname, .stringTr n.toNat)])
      | some _ => .error (.typeError "maxlen attribute is not an integer")
      | none => .error (.keyError (colname ++ "_MAXLEN"))
    else .ok trs
  else .ok trs

/-- `HDF5TableReader._map_transforms_from_table_header`: walk the header
attributes, reconstructing the transforms needed to undo the writer's. -/
def map_transforms_from_table_header (tab : TableOnDisk)
    (trs0 : List (String × ColumnTransform)) :
    Except PyErr (List (String × ColumnTransform)) :=
  tab.attrs.foldlM (fun trs kv => mapTransformsAttr tab.colsDesc tab.attrs trs kv) trs0

/-- `HDF5TableReader._setup_table` (first access to a table name): resolve
the node, map columns to containers, partition metadata, reconstruct
transforms, and cache everything under the table name.  Mutations preceding
an exception are dropped here; no settled claim exercises that corner. -/
def setup_table (rs : ReaderState) (tableName : String)
    (ctrs : List ContainerType) (pfxs : List String) (ignore : List String) :
    Except PyErr (ReaderState × TableOnDisk) :=
  match rs.file.lookup tableName with
  | none => .error (.noSuchNode tableName)
  | some tab =>
    let colnames := tab.colsDesc.map (fun nc => nc.1)
    let pairs := ctrs.zip pfxs
    let r := map_table_to_containers tableName colnames pairs ignore
    let metaPart := handle_metadata tab.attrs pairs
    match map_transforms_from_table_header tab
        ((rs.transforms.lookup tableName).getD []) with
    | .error e => .error e
    | .ok trs =>
      .ok ({ rs with
        tables := rs.tables ++ [tableName],
        cols_to_read := updMap rs.cols_to_read tableName r.1,
        missing_cols := updMap rs.missing_cols tableName r.2.1,
        metaTables := updMap rs.metaTables tableName metaPart,
        transforms := updMap rs.transforms tableName trs,
        log := rs.log ++ r.2.2 }, tab)

/-- The `prefixes` argument of `read`: `False`, `True`, one string for all
containers, or an explicit list. -/
inductive PfxArg where
  | noPfx : PfxArg
  | typePfx : PfxArg
  | fixedPfx (s : String) : PfxArg
  | listPfx (l : List String) : PfxArg

/-- Resolve the `prefixes` argument against the requested container types. -/
def resolvePfx : PfxArg → List ContainerType → List String
  | .noPfx, cs => cs.map (fun _ => "")
  | .typePfx, cs => cs.map (fun c => c.defaultPfx)
  | .fixedPfx s, cs => cs.map (fun _ => s)
  | .listPfx l, _ => l

/-- Materialize one container instance from one stored row (the body of the
row loop of `read` for one requested class): build `kwargs` from the
readable columns through the reconstructed transform chain, then set the
missing fields to `None`; unmentioned fields keep their declared default. -/
def materializeOne (cols : List String) (trs : List (String × ColumnTransform))
    (row : List (String × Value)) (ctr : ContainerType) (pfx : String)
    (missingCols : List String) (meta : List (String × AttrVal)) :
    Except PyErr Record := do
  let kwargs ← ctr.fields.foldlM (fun acc f => do
    let colname := addPfx pfx f
    if cols.contains colname then
      match row.lookup colname with
      | some raw => do
        let v ← applyChainInv trs colname raw
        pure (updMap acc f (FieldInit.fromTable v))
      | none => throw (PyErr.keyError colname)
    else pure acc) ([] : List (String × FieldInit))
  let kwargs2 := missingCols.foldl (fun acc f => updMap acc f FieldInit.noneInit) kwargs
  pure { clsName := ctr.clsName, pfx := pfx,
         fields := ctr.fields.map
           (fun f => (f, (kwargs2.lookup f).getD FieldInit.defaultInit)),
         meta := meta }

/-- The body of the row loop of `read` for one stored row: materialize one
fresh record per requested container class, returning the tuple (or the
single record when a single class was requested).  The result depends only
on the given row and the setup-time caches, never on other rows. -/
def materializeRowItem (cols : List String) (trs : List (String × ColumnTransform))
    (triples : List (ContainerType × String × List String))
    (metaPart : List (String × List (String × AttrVal))) (return_iterable : Bool)
    (row : List (String × Value)) : Except PyErr ReadItem :=
  (triples.mapM (fun t =>
    materializeOne cols trs row t.1 t.2.1 t.2.2
      ((metaPart.lookup t.1.clsName).getD []))).map
    (fun recs =>
      if return_iterable then ReadItem.tuple recs
      else
        match recs.head? with
        | some r => ReadItem.single r
        | none => ReadItem.tuple [])

/-- `HDF5TableReader.read`: a lazy sequence, modelled as the list of the
items the generator yields in order.  The prefix-length check precedes any
row access; the row loop runs over the stored row indices `0, ..., len-1`
in ascending order and constructs a fresh record (tuple) per row.
`return_iterable` records whether a list of classes (rather than a single
class) was requested. -/
def read (rs : ReaderState) (tableName : String) (ctrs : List ContainerType)
    (return_iterable : Bool) (pfxArg : PfxArg) (ignoreArg : Option (List String)) :
    ReaderState × Except PyErr (List ReadItem) :=
  let ignore := ignoreArg.getD []
  let pfxs := resolvePfx pfxArg ctrs
  if pfxs.length ≠ ctrs.length then
    (rs, .error (.valueError "Length of provided prefixes does not match containers"))
  else
    match
      (if rs.tables.contains tableName then
        match rs.file.lookup tableName with
        | some tab => .ok (rs, tab)
        | none => .error (.noSuchNode tableName)
      else setup_table rs tableName ctrs pfxs ignore) with
    | .error e => (rs, .error e)
    | .ok (rs1, tab) =>
      let cols := (rs1.cols_to_read.lookup tableName).getD []
      let missing := (rs1.missing_cols.lookup tableName).getD []
      let trs := (rs1.transforms.lookup tableName).getD []
      let metaPart := (rs1.metaTables.lookup tableName).getD []
      let triples := ctrs.zip (pfxs.zip missing)
      let out := tab.rows.mapM
        (materializeRowItem cols trs triples metaPart return_iterable)
      (rs1, out)

/-! ### Generic lemmas about the association-list operations -/

theorem lookup_cons_ne {α : Type} (k k1 : String) (v : α) (l : List (String × α))
    (h : k ≠ k1) : List.lookup k ((k1, v) :: l) = List.lookup k l := by
  simp [List.lookup, beq_false_of_ne h]

theorem updMap_lookup_self {α : Type} (m : List (String × α)) (k : String) (v : α) :
    (updMap m k v).lookup k = some v := by
  induction m with
  | nil => simp [updMap]
  | cons kv rest ih =>
    rcases kv with ⟨k1, v1⟩
    by_cases h : k1 = k
    · subst h
      simp [updMap]
    · rw [updMap, if_neg h, lookup_cons_ne _ _ _ _ (fun he => h he.symm)]
      exact ih

theorem updMap_lookup_ne {α : Type} (m : List (String × α)) (k k2 : String) (v : α)
    (h : k2 ≠ k) : (updMap m k v).lookup k2 = m.lookup k2 := by
  induction m with
  | nil => simp [updMap, List.lookup, beq_false_of_ne h]
  | cons kv rest ih =>
    rcases kv with ⟨k1, v1⟩
    by_cases h1 : k1 = k
    · subst h1
      rw [updMap, if_pos rfl, lookup_cons_ne _ _ _ _ h, lookup_cons_ne _ _ _ _ h]
    · rw [updMap, if_neg h1]
      by_cases h2 : k2 = k1
      · subst h2
        simp
      · rw [lookup_cons_ne _ _ _ _ h2, lookup_cons_ne _ _ _ _ h2]
        exact ih

theorem updateAttr_eq_updMap (m : List (String × AttrVal)) (k : String) (v : AttrVal) :
    updateAttr m k v = updMap m k v := by
  induction m with
  | nil => rfl
  | cons kv rest ih =>
    rcases kv with ⟨k1, v1⟩
    by_cases h : k1 = k
    · simp [updateAttr, updMap, h]
    · simp [updateAttr, updMap, h, ih]

theorem updateAttr_fresh (m : List (String × AttrVal)) (k : String) (v : AttrVal)
    (h : m.lookup k = none) : updateAttr m k v = m ++ [(k, v)] := by
  induction m with
  | nil => rfl
  | cons kv rest ih =>
    rcases kv with ⟨k1, v1⟩
    by_cases h1 : k = k1
    · subst h1
      simp at h
    · rw [lookup_cons_ne _ _ _ _ h1] at h
      simp only [updateAttr]
      rw [if_neg (fun he : k1 = k => h1 he.symm), ih h]
      rfl

theorem lookup_of_mem_of_nodup {α : Type} {l : List (String × α)} {k : String} {v : α}
    (hmem : (k, v) ∈ l) (hnd : (l.map (fun p => p.1)).Nodup) :
    l.lookup k = some v := by
  induction l with
  | nil => simp at hmem
  | cons kv rest ih =>
    rcases kv with ⟨k1, v1⟩
    simp only [List.map_cons, List.nodup_cons] at hnd
    rcases List.mem_cons.mp hmem with he | hm
    · rw [Prod.mk.injEq] at he
      simp [List.lookup, he.1, he.2]
    · have hk : k ≠ k1 := by
        intro he
        subst he
        exact hnd.1 (List.mem_map.mpr ⟨(k, v), hm, rfl⟩)
      rw [lookup_cons_ne _ _ _ _ hk]
      exact ih hm hnd.2

/-! ### Claim C9 -/

/-- An empty writer over an empty file (used to instantiate theorems). -/
def emptyWriter : WriterState :=
  { schemas := [], tables := [], transforms := [], file := [],
    group := "/", excl := fun _ _ => false, log := [] }

/-- C9: Configuration errors fail fast — constructing a writer with an open
mode other than the supported write modes (`a`, `w`, `r+`) raises
immediately; a write call whose table name starts with a path separator
raises with the file contents untouched, so no row is appended; a read call
whose explicit prefix list has a length different from the number of
requested record types raises before any row is produced. -/
theorem c9_configuration_errors_fail_fast :
    (∀ (mode group_name : String) (excl : String → String → Bool)
        (utrs : List (String × List (String × ColumnTransform)))
        (file : List (String × TableOnDisk)),
      mode ≠ "a" → mode ≠ "w" → mode ≠ "r+" →
      HDF5TableWriter_init mode group_name excl utrs file =
        .error (.ioError "The mode is not supported for writing")) ∧
    (∀ (w : WriterState) (tn : String) (cs : List ContainerInstance),
      sStartsWith tn "/" = true → w.tables.lookup tn = none →
      (write w tn cs).2.isSome = true ∧ (write w tn cs).1.file = w.file) ∧
    (∀ (rs : ReaderState) (tn : String) (ctrs : List ContainerType)
        (ri : Bool) (l : List String) (ig : Option (List String)),
      l.length ≠ ctrs.length →
      read rs tn ctrs ri (.listPfx l) ig =
        (rs, .error
          (.valueError "Length of provided prefixes does not match containers"))) := by
  refine ⟨?_, ?_, ?_⟩
  · intro mode group_name excl utrs file h1 h2 h3
    unfold HDF5TableWriter_init
    rw [if_neg]
    push_neg
    exact ⟨h1, h2, h3⟩
  · intro w tn cs hsl htab
    have hsetup : (setup_new_table w tn cs).1.file = w.file ∧
        (setup_new_table w tn cs).2.isSome = true := by
      simp only [setup_new_table]
      rcases schemaAddContainers w.excl tn
          ({ columns := [], meta := [],
             transforms := (List.lookup tn w.transforms).getD [], log := [] }, 0) cs
        with ⟨⟨st, p⟩, _ | e⟩
      · simp [hsl]
      · simp
    unfold write
    by_cases hsch : (w.schemas.lookup tn).isSome
    · rw [if_pos hsch]
      unfold append_row
      rw [htab]
      exact ⟨rfl, rfl⟩
    · rw [if_neg hsch]
      rcases h : setup_new_table w tn cs with ⟨w1, e?⟩
      rw [h] at hsetup
      rcases e? with _ | e
      · simp at hsetup
      · exact ⟨rfl, hsetup.1⟩
  · intro rs tn ctrs ri l ig h
    unfold read
    simp only [resolvePfx]
    rw [if_pos h]

/-- Witness for C9: the theorem applied at concrete inputs. -/
theorem c9_configuration_errors_fail_fast_witness :
    (HDF5TableWriter_init "x" "" (fun _ _ => false) [] [] =
      .error (.ioError "The mode is not supported for writing")) ∧
    ((write emptyWriter "/t" []).2.isSome = true ∧
      (write emptyWriter "/t" []).1.file = emptyWriter.file) ∧
    (read (HDF5TableReader_init []) "t" [{ clsName := "A", fields := ["f"] }]
        true (.listPfx ["a", "b"]) none =
      (HDF5TableReader_init [],
        .error
          (.valueError "Length of provided prefixes does not match containers"))) :=
  ⟨c9_configuration_errors_fail_fast.1 "x" "" (fun _ _ => false) [] []
      (by decide) (by decide) (by decide),
   c9_configuration_errors_fail_fast.2.1 emptyWriter "/t" [] (by decide) rfl,
   c9_configuration_errors_fail_fast.2.2 (HDF5TableReader_init []) "t"
      [{ clsName := "A", fields := ["f"] }] true ["a", "b"] none (by decide)⟩

/-! ### Claim C4 -/

theorem appendRowItems_error (trs : List (String × ColumnTransform)) (cls : String) :
    ∀ (items buf buf1 : List (String × Value)) (lm : LogMsg) (e : PyErr),
    appendRowItems trs cls buf items = (buf1, some (lm, e)) →
    ∃ colname value, (colname, value) ∈ items ∧
      applyChainFwd trs colname value = .error e ∧
      lm = .errorWritingCol colname cls := by
  intro items
  induction items with
  | nil =>
    intro buf buf1 lm e h
    simp [appendRowItems] at h
  | cons kv rest ih =>
    intro buf buf1 lm e h
    rcases kv with ⟨cn, v⟩
    simp only [appendRowItems] at h
    cases hap : applyChainFwd trs cn v with
    | error e1 =>
      rw [hap] at h
      simp only [Prod.mk.injEq, Option.some.injEq] at h
      refine ⟨cn, v, List.mem_cons_self _ _, ?_, ?_⟩
      · rw [hap, h.2.2]
      · exact h.2.1.symm
    | ok v1 =>
      rw [hap] at h
      obtain ⟨c1, v2, hm, h1, h2⟩ := ih (updMap buf cn v1) buf1 lm e h
      exact ⟨c1, v2, List.mem_cons_of_mem _ hm, h1, h2⟩

theorem appendRowContainers_error (trs : List (String × ColumnTransform))
    (colnames : List String) :
    ∀ (cs : List ContainerInstance) (buf buf1 : List (String × Value))
      (lm : LogMsg) (e : PyErr),
    appendRowContainers trs colnames buf cs = (buf1, some (lm, e)) →
    ∃ c ∈ cs, ∃ colname value,
      (colname, value) ∈ (c.items.map (fun it => (it.1, it.2.2))).filter
        (fun kv => colnames.contains kv.1) ∧
      applyChainFwd trs colname value = .error e ∧
      lm = .errorWritingCol colname c.clsName := by
  intro cs
  induction cs with
  | nil =>
    intro buf buf1 lm e h
    simp [appendRowContainers] at h
  | cons c rest ih =>
    intro buf buf1 lm e h
    simp only [appendRowContainers] at h
    rcases hit : appendRowItems trs c.clsName buf
        ((c.items.map (fun it => (it.1, it.2.2))).filter
          (fun kv => colnames.contains kv.1)) with ⟨bufi, e?⟩
    rw [hit] at h
    rcases e? with _ | le
    · obtain ⟨c1, hm, rest1⟩ := ih bufi buf1 lm e h
      exact ⟨c1, List.mem_cons_of_mem _ hm, rest1⟩
    · simp only [Prod.mk.injEq, Option.some.injEq] at h
      rcases le with ⟨lm1, e1⟩
      obtain ⟨cn, v, hm, h1, h2⟩ :=
        appendRowItems_error trs c.clsName _ buf bufi lm1 e1 hit
      rw [Prod.mk.injEq] at h
      refine ⟨c, List.mem_cons_self _ _, cn, v, hm, ?_, ?_⟩
      · rw [h1, h.2.2]
      · rw [← h.2.1]
        exact h2

/-- C4: Append atomicity — when a registered column transform raises while
converting a value during a write call, the call logs the failing column
and record (container class), re-raises the exception, and commits no row:
the file contents (hence every table's stored row count) are unchanged. -/
theorem c4_append_atomicity (w : WriterState) (tn : String)
    (cs : List ContainerInstance) (path : String) (tab : TableOnDisk)
    (buf : List (String × Value)) (lm : LogMsg) (e : PyErr)
    (hs : (w.schemas.lookup tn).isSome = true)
    (h1 : w.tables.lookup tn = some path)
    (h2 : w.file.lookup path = some tab)
    (h4 : appendRowContainers ((w.transforms.lookup tn).getD [])
        (tab.colsDesc.map (fun nc => nc.1)) [] cs = (buf, some (lm, e))) :
    write w tn cs = ({ w with log := w.log ++ [lm] }, some e) ∧
    (write w tn cs).1.file = w.file ∧
    ∃ c ∈ cs, ∃ colname value,
      (colname, value) ∈ (c.items.map (fun it => (it.1, it.2.2))).filter
        (fun kv => (tab.colsDesc.map (fun nc => nc.1)).contains kv.1) ∧
      applyChainFwd ((w.transforms.lookup tn).getD []) colname value = .error e ∧
      lm = .errorWritingCol colname c.clsName := by
  have hw : write w tn cs = ({ w with log := w.log ++ [lm] }, some e) := by
    unfold write
    rw [if_pos hs]
    unfold append_row
    rw [h1]
    simp only [h2, h4]
  refine ⟨hw, by rw [hw], ?_⟩
  exact appendRowContainers_error _ _ cs [] buf lm e h4

/-- A concrete writer state whose table `t` has one `int` column `x` with a
registered enum transform (used to instantiate theorems). -/
def c4Writer : WriterState :=
  { schemas := [("t", [("x", { coltype := "Int64Col", pos := some 0 })])],
    tables := [("t", "/t")],
    transforms := [("t", [("x", .enumTr "E")])],
    file := [("/t", { colsDesc := [("x", { coltype := "Int64Col", pos := some 0 })],
                      attrs := [], rows := [] })],
    group := "/", excl := fun _ _ => false, log := [] }

/-- A container instance holding a string where the enum transform of
column `x` expects an enum member (the transform raises on it). -/
def c4BadInstance : ContainerInstance :=
  { clsName := "C", items := [("x", {}, Value.strV "oops")] }

/-- Witness for C4: the theorem applied at a concrete failing write. -/
theorem c4_append_atomicity_witness :
    write c4Writer "t" [c4BadInstance] =
      ({ c4Writer with log := c4Writer.log ++ [.errorWritingCol "x" "C"] },
        some (.transformError "value does not match transform")) ∧
    (write c4Writer "t" [c4BadInstance]).1.file = c4Writer.file :=
  ⟨(c4_append_atomicity c4Writer "t" [c4BadInstance] "/t"
      { colsDesc := [("x", { coltype := "Int64Col", pos := some 0 })],
        attrs := [], rows := [] }
      [] (.errorWritingCol "x" "C")
      (.transformError "value does not match transform")
      (by decide) (by decide) (by decide) (by decide)).1,
   (c4_append_atomicity c4Writer "t" [c4BadInstance] "/t"
      { colsDesc := [("x", { coltype := "Int64Col", pos := some 0 })],
        attrs := [], rows := [] }
      [] (.errorWritingCol "x" "C")
      (.transformError "value does not match transform")
      (by decide) (by decide) (by decide) (by decide)).2.1⟩

/-! ### Claim C8 -/

/-- The row `_append_row` commits: one value per column, taken from the row
buffer, with the storage engine's zero-fill for unassigned columns. -/
def committedRow (tab : TableOnDisk) (buffer : List (String × Value)) :
    List (String × Value) :=
  tab.colsDesc.map (fun nc => (nc.1, (buffer.lookup nc.1).getD (rowDefault nc.2)))

/-- A table node after appending one committed row. -/
def appendedTab (tab : TableOnDisk) (buffer : List (String × Value)) : TableOnDisk :=
  { tab with rows := tab.rows ++ [committedRow tab buffer] }

/-- C8: Schema is fixed after the first write — once `self._schemas` holds
the table name, a further write call does not rebuild the schema, does not
recreate or retouch the table node's attributes or column descriptions, and
does not write any log: it only appends exactly one row to that table,
leaving every other node untouched. -/
theorem c8_schema_fixed_after_first_write (w : WriterState) (tn : String)
    (cs : List ContainerInstance) (path : String) (tab : TableOnDisk)
    (buffer : List (String × Value))
    (hs : (w.schemas.lookup tn).isSome = true)
    (h1 : w.tables.lookup tn = some path)
    (h2 : w.file.lookup path = some tab)
    (h4 : appendRowContainers ((w.transforms.lookup tn).getD [])
        (tab.colsDesc.map (fun nc => nc.1)) [] cs = (buffer, none)) :
    (write w tn cs).2 = none ∧
    (write w tn cs).1.schemas = w.schemas ∧
    (write w tn cs).1.tables = w.tables ∧
    (write w tn cs).1.transforms = w.transforms ∧
    (write w tn cs).1.log = w.log ∧
    ((write w tn cs).1.file.lookup path).map (fun t => t.attrs) = some tab.attrs ∧
    ((write w tn cs).1.file.lookup path).map (fun t => t.colsDesc) =
      some tab.colsDesc ∧
    ((write w tn cs).1.file.lookup path).map (fun t => t.rows.length) =
      some (tab.rows.length + 1) ∧
    (∀ p2, p2 ≠ path → (write w tn cs).1.file.lookup p2 = w.file.lookup p2) := by
  have hw : write w tn cs =
      ({ w with file := updMap w.file path (appendedTab tab buffer) }, none) := by
    unfold write
    rw [if_pos hs]
    unfold append_row
    rw [h1]
    simp only [h2, h4]
    rfl
  rw [hw]
  refine ⟨rfl, rfl, rfl, rfl, rfl, ?_, ?_, ?_, ?_⟩
  · rw [updMap_lookup_self]
    rfl
  · rw [updMap_lookup_self]
    rfl
  · rw [updMap_lookup_self]
    simp [appendedTab]
  · intro p2 hne
    exact updMap_lookup_ne _ _ _ _ hne

/-- A well-typed instance for the enum column of `c4Writer` (used to
instantiate theorems about a second write). -/
def c8OkInstance : ContainerInstance :=
  { clsName := "C", items := [("x", {}, Value.enumV "E" 1)] }

/-- Witness for C8: the theorem applied at a concrete second write. -/
theorem c8_schema_fixed_after_first_write_witness :
    (write c4Writer "t" [c8OkInstance]).2 = none ∧
    (write c4Writer "t" [c8OkInstance]).1.schemas = c4Writer.schemas ∧
    ((write c4Writer "t" [c8OkInstance]).1.file.lookup "/t").map
      (fun t => t.rows.length) = some 1 :=
  have h := c8_schema_fixed_after_first_write c4Writer "t" [c8OkInstance] "/t"
    { colsDesc := [("x", { coltype := "Int64Col", pos := some 0 })],
      attrs := [], rows := [] }
    [("x", Value.scalarV "int" 1)] (by decide) rfl rfl rfl
  ⟨h.1, h.2.1, h.2.2.2.2.2.2.2.1⟩

/-! ### Claim C7 -/

theorem lookup_none_not_mem {α : Type} {l : List (String × α)} {k : String}
    (h : l.lookup k = none) : k ∉ l.map (fun p => p.1) := by
  induction l with
  | nil => simp
  | cons kv rest ih =>
    rcases kv with ⟨k1, v1⟩
    by_cases he : k = k1
    · subst he
      simp at h
    · rw [lookup_cons_ne _ _ _ _ he] at h
      simp only [List.map_cons, List.mem_cons]
      push_neg
      exact ⟨he, ih h⟩

theorem not_isSome_eq_none {α : Type} {o : Option α} (h : ¬ o.isSome = true) :
    o = none := by
  cases o with
  | none => rfl
  | some x => simp at h

/-- The storage dispatch always produces a column carrying the processed
field's column name. -/
theorem storageDispatch_col_name (name : String) (pos : Nat) (field : Field)
    (v : Value) (col : String × ColDesc) (dtrs : List (String × ColumnTransform))
    (h : storageDispatch name pos field v = .ok (col, dtrs)) : col.1 = name := by
  cases v <;> simp only [storageDispatch] at h <;>
    (try (repeat' split at h)) <;>
    (try (exfalso; exact Except.noConfusion h)) <;>
    (have hc := Except.ok.inj h) <;> (injection hc with hc1 hc2) <;> rw [← hc1]

/-- Processing one field either leaves the schema columns unchanged (any of
the skip paths) or appends one fresh column under the processed name. -/
theorem add_column_columns_shape (excl : String → String → Bool) (tn : String)
    (st : SchemaBuildState) (pos : Nat) (f : Field) (name : String) (v : Value)
    (st1 : SchemaBuildState)
    (h : add_column_to_schema excl tn st pos f name v = .ok st1) :
    st1.columns = st.columns ∨
    (st.columns.lookup name = none ∧
      ∃ cd, st1.columns = st.columns ++ [(name, cd)]) := by
  cases v
  case containerV =>
    left
    simp only [add_column_to_schema] at h
    rw [← Except.ok.inj h]
  case mapV =>
    left
    simp only [add_column_to_schema] at h
    rw [← Except.ok.inj h]
  all_goals (
    simp only [add_column_to_schema] at h
    by_cases hexcl : excl tn name = true
    · rw [if_pos hexcl] at h
      left
      rw [← Except.ok.inj h]
    · rw [if_neg hexcl] at h
      by_cases hdup : (List.lookup name st.columns).isSome = true
      · rw [if_pos hdup] at h
        left
        rw [← Except.ok.inj h]
      · rw [if_neg hdup] at h
        split at h
        · exact Except.noConfusion h
        · split at h
          · exact Except.noConfusion h
          · rename_i v1 heq1 col dispTrs heq2
            obtain ⟨cd, rfl⟩ : ∃ cd, col = (name, cd) := by
              have hn := storageDispatch_col_name _ _ _ _ _ _ heq2
              exact ⟨col.2, by rw [← hn]⟩
            right
            refine ⟨not_isSome_eq_none hdup, cd, ?_⟩
            rw [← Except.ok.inj h])

/-- The duplicate-column branch: a field whose column name is already in the
schema is skipped with a warning, leaving schema, metadata and transforms
untouched (first writer wins). -/
theorem add_column_duplicate (excl : String → String → Bool) (tn : String)
    (st : SchemaBuildState) (pos : Nat) (f : Field) (name : String) (v : Value)
    (hv1 : v ≠ .containerV) (hv2 : v ≠ .mapV)
    (hexcl : excl tn name = false)
    (hdup : (st.columns.lookup name).isSome = true) :
    add_column_to_schema excl tn st pos f name v =
      .ok { st with log := st.log ++ [.warnDuplicate name] } := by
  cases v <;> first
    | exact absurd rfl hv1
    | exact absurd rfl hv2
    | simp [add_column_to_schema, hexcl, hdup]

theorem add_column_preserves (excl : String → String → Bool) (tn : String)
    (st : SchemaBuildState) (pos : Nat) (f : Field) (name : String) (v : Value)
    (st1 : SchemaBuildState) (n0 : String) (cd : ColDesc)
    (h : add_column_to_schema excl tn st pos f name v = .ok st1)
    (h0 : st.columns.lookup n0 = some cd) :
    st1.columns.lookup n0 = some cd := by
  rcases add_column_columns_shape excl tn st pos f name v st1 h with hsame | ⟨_, cd1, happ⟩
  · rw [hsame, h0]
  · rw [happ, List.lookup_append, h0]
    rfl

theorem add_column_nodup (excl : String → String → Bool) (tn : String)
    (st : SchemaBuildState) (pos : Nat) (f : Field) (name : String) (v : Value)
    (st1 : SchemaBuildState)
    (h : add_column_to_schema excl tn st pos f name v = .ok st1)
    (hnd : (st.columns.map (fun p => p.1)).Nodup) :
    (st1.columns.map (fun p => p.1)).Nodup := by
  rcases add_column_columns_shape excl tn st pos f name v st1 h with hsame | ⟨hnone, cd1, happ⟩
  · rw [hsame]
    exact hnd
  · rw [happ, List.map_append]
    simp only [List.map_cons, List.map_nil]
    rw [List.nodup_append]
    refine ⟨hnd, List.nodup_singleton _, ?_⟩
    have hnm := lookup_none_not_mem hnone
    intro a ha hb
    simp only [List.mem_singleton] at hb
    subst hb
    exact hnm ha

theorem schemaAddItems_preserves (excl : String → String → Bool)
    (tn cls : String) :
    ∀ (items : List (String × Field × Value)) (acc : SchemaBuildState × Nat)
      (n0 : String) (cd : ColDesc),
    acc.1.columns.lookup n0 = some cd →
    (schemaAddItems excl tn cls acc items).1.1.columns.lookup n0 = some cd := by
  intro items
  induction items with
  | nil => intro acc n0 cd h0; exact h0
  | cons it rest ih =>
    intro acc n0 cd h0
    rcases acc with ⟨st, pos⟩
    rcases it with ⟨cn, f, v⟩
    simp only [schemaAddItems]
    rcases hac : add_column_to_schema excl tn st pos f cn v with e | st1
    · rcases e <;> simp only <;>
        first
        | exact ih _ _ _ h0
        | exact h0
    · exact ih _ _ _ (add_column_preserves excl tn st pos f cn v st1 n0 cd hac h0)

theorem schemaAddItems_nodup (excl : String → String → Bool) (tn cls : String) :
    ∀ (items : List (String × Field × Value)) (acc : SchemaBuildState × Nat),
    (acc.1.columns.map (fun p => p.1)).Nodup →
    ((schemaAddItems excl tn cls acc items).1.1.columns.map (fun p => p.1)).Nodup := by
  intro items
  induction items with
  | nil => intro acc h0; exact h0
  | cons it rest ih =>
    intro acc h0
    rcases acc with ⟨st, pos⟩
    rcases it with ⟨cn, f, v⟩
    simp only [schemaAddItems]
    rcases hac : add_column_to_schema excl tn st pos f cn v with e | st1
    · rcases e <;> simp only <;>
        first
        | exact ih _ h0
        | exact h0
    · exact ih _ (add_column_nodup excl tn st pos f cn v st1 hac h0)

theorem schemaAddContainers_preserves (excl : String → String → Bool)
    (tn : String) :
    ∀ (cs : List ContainerInstance) (acc : SchemaBuildState × Nat)
      (n0 : String) (cd : ColDesc),
    acc.1.columns.lookup n0 = some cd →
    (schemaAddContainers excl tn acc cs).1.1.columns.lookup n0 = some cd := by
  intro cs
  induction cs with
  | nil => intro acc n0 cd h0; exact h0
  | cons c rest ih =>
    intro acc n0 cd h0
    simp only [schemaAddContainers]
    rcases hit : schemaAddItems excl tn c.clsName acc c.items with ⟨acc1, e?⟩
    have hp := schemaAddItems_preserves excl tn c.clsName c.items acc n0 cd h0
    rw [hit] at hp
    rcases e? with _ | e
    · exact ih acc1 n0 cd hp
    · exact hp

theorem schemaAddContainers_nodup (excl : String → String → Bool) (tn : String) :
    ∀ (cs : List ContainerInstance) (acc : SchemaBuildState × Nat),
    (acc.1.columns.map (fun p => p.1)).Nodup →
    ((schemaAddContainers excl tn acc cs).1.1.columns.map (fun p => p.1)).Nodup := by
  intro cs
  induction cs with
  | nil => intro acc h0; exact h0
  | cons c rest ih =>
    intro acc h0
    simp only [schemaAddContainers]
    rcases hit : schemaAddItems excl tn c.clsName acc c.items with ⟨acc1, e?⟩
    have hp := schemaAddItems_nodup excl tn c.clsName c.items acc h0
    rw [hit] at hp
    rcases e? with _ | e
    · exact ih acc1 hp
    · exact hp

/-- C7: Duplicate column policy — (a) a field whose column name was already
added by an earlier record is skipped with a warning, leaving schema,
metadata and transforms untouched; (b) the descriptor a column got when it
was first added survives the processing of all later records (its type,
shape and transform come from the first record); (c) the built schema never
holds two columns of one name. -/
theorem c7_duplicate_first_wins :
    (∀ (excl : String → String → Bool) (tn : String) (st : SchemaBuildState)
        (pos : Nat) (f : Field) (name : String) (v : Value),
      v ≠ .containerV → v ≠ .mapV → excl tn name = false →
      (st.columns.lookup name).isSome = true →
      add_column_to_schema excl tn st pos f name v =
        .ok { st with log := st.log ++ [.warnDuplicate name] }) ∧
    (∀ (excl : String → String → Bool) (tn : String)
        (cs : List ContainerInstance) (acc : SchemaBuildState × Nat)
        (n0 : String) (cd : ColDesc),
      acc.1.columns.lookup n0 = some cd →
      (schemaAddContainers excl tn acc cs).1.1.columns.lookup n0 = some cd) ∧
    (∀ (excl : String → String → Bool) (tn : String)
        (cs : List ContainerInstance) (acc : SchemaBuildState × Nat),
      (acc.1.columns.map (fun p => p.1)).Nodup →
      ((schemaAddContainers excl tn acc cs).1.1.columns.map
        (fun p => p.1)).Nodup) :=
  ⟨add_column_duplicate, schemaAddContainers_preserves, schemaAddContainers_nodup⟩

/-- Witness for C7: a merge of two containers both declaring column `x`:
the second occurrence only warns, the first descriptor survives, and the
schema stays duplicate-free. -/
theorem c7_duplicate_first_wins_witness :
    (add_column_to_schema (fun _ _ => false) "t"
        { columns := [("x", { coltype := "Int64Col", pos := some 0 })],
          meta := [], transforms := [], log := [] } 1 {} "x"
        (Value.scalarV "float64" 5) =
      .ok { columns := [("x", { coltype := "Int64Col", pos := some 0 })],
            meta := [], transforms := [], log := [.warnDuplicate "x"] }) ∧
    ((schemaAddContainers (fun _ _ => false) "t"
        ({ columns := [("x", { coltype := "Int64Col", pos := some 0 })],
           meta := [], transforms := [], log := [] }, 1)
        [{ clsName := "B", items := [("x", {}, Value.scalarV "float64" 5)] }]
      ).1.1.columns.lookup "x" = some { coltype := "Int64Col", pos := some 0 }) ∧
    (((schemaAddContainers (fun _ _ => false) "t"
        ({ columns := [("x", { coltype := "Int64Col", pos := some 0 })],
           meta := [], transforms := [], log := [] }, 1)
        [{ clsName := "B", items := [("x", {}, Value.scalarV "float64" 5)] }]
      ).1.1.columns.map (fun p => p.1)).Nodup) :=
  ⟨c7_duplicate_first_wins.1 (fun _ _ => false) "t"
      { columns := [("x", { coltype := "Int64Col", pos := some 0 })],
        meta := [], transforms := [], log := [] } 1 {} "x"
      (Value.scalarV "float64" 5) (by decide) (by decide) rfl rfl,
   c7_duplicate_first_wins.2.1 (fun _ _ => false) "t"
      [{ clsName := "B", items := [("x", {}, Value.scalarV "float64" 5)] }]
      ({ columns := [("x", { coltype := "Int64Col", pos := some 0 })],
         meta := [], transforms := [], log := [] }, 1) "x"
      { coltype := "Int64Col", pos := some 0 } rfl,
   c7_duplicate_first_wins.2.2 (fun _ _ => false) "t"
      [{ clsName := "B", items := [("x", {}, Value.scalarV "float64" 5)] }]
      ({ columns := [("x", { coltype := "Int64Col", pos := some 0 })],
         meta := [], transforms := [], log := [] }, 1) (by decide)⟩

/-! ### Claim C3 -/

/-- The empty schema-build state. -/
def emptySchemaState : SchemaBuildState :=
  { columns := [], meta := [], transforms := [], log := [] }

/-- A container declaring columns `a` and `b` (both plain ints). -/
def c3Both : ContainerInstance :=
  { clsName := "C",
    items := [("a", {}, Value.scalarV "int" 1), ("b", {}, Value.scalarV "int" 2)] }

/-- The same container without the `a` field. -/
def c3OnlyB : ContainerInstance :=
  { clsName := "C", items := [("b", {}, Value.scalarV "int" 2)] }

/-- Counterexample to C3: with an exclusion rule matching column `a`, the
schema built from a container declaring `a` and `b` gives `b` the ordinal
position 1 — the excluded field consumed position 0 — whereas building from
the container without `a` gives `b` position 0.  The positions are NOT "the
same as if the excluded field had not been present at all". -/
theorem c3_counterexample :
    ((schemaAddContainers (fun tn n => tn == "t" && n == "a") "t"
        (emptySchemaState, 0) [c3Both]).1.1.columns.lookup "b" =
      some { coltype := "Int64Col", shape := [], pos := some 1, itemsize := none }) ∧
    ((schemaAddContainers (fun tn n => tn == "t" && n == "a") "t"
        (emptySchemaState, 0) [c3OnlyB]).1.1.columns.lookup "b" =
      some { coltype := "Int64Col", shape := [], pos := some 0, itemsize := none }) := by
  decide

/-- An excluded field (that is not a sub-container or map) is skipped with
a debug log and the schema/meta/transform state untouched. -/
theorem add_column_excluded (excl : String → String → Bool) (tn : String)
    (st : SchemaBuildState) (pos : Nat) (f : Field) (name : String) (v : Value)
    (hv1 : v ≠ .containerV) (hv2 : v ≠ .mapV)
    (hexcl : excl tn name = true) :
    add_column_to_schema excl tn st pos f name v =
      .ok { st with log := st.log ++ [.debugExcluded tn name] } := by
  cases v <;> first
    | exact absurd rfl hv1
    | exact absurd rfl hv2
    | simp [add_column_to_schema, hexcl]

/-- Any field processing leaves the columns map untouched at an excluded
name (excluded fields never enter the schema; other fields append under
their own, different, name). -/
theorem add_column_keeps_excluded_none (excl : String → String → Bool)
    (tn : String) (st : SchemaBuildState) (pos : Nat) (f : Field)
    (cn name : String) (v : Value) (st1 : SchemaBuildState)
    (hexcl : excl tn name = true)
    (h : add_column_to_schema excl tn st pos f cn v = .ok st1)
    (h0 : st.columns.lookup name = none) :
    st1.columns.lookup name = none := by
  by_cases hcn : cn = name
  · subst hcn
    cases v
    · simp only [add_column_to_schema] at h
      rw [← Except.ok.inj h]
      exact h0
    · simp only [add_column_to_schema] at h
      rw [← Except.ok.inj h]
      exact h0
    all_goals (
      rw [add_column_excluded excl tn st pos f cn _ (fun hh => Value.noConfusion hh)
        (fun hh => Value.noConfusion hh) hexcl] at h
      rw [← Except.ok.inj h]
      exact h0)
  · rcases add_column_columns_shape excl tn st pos f cn v st1 h with hsame | ⟨hnone, cd, happ⟩
    · rw [hsame]
      exact h0
    · rw [happ, List.lookup_append, h0, lookup_cons_ne _ _ _ _ (fun he => hcn he.symm)]
      rfl

theorem schemaAddItems_keeps_excluded_none (excl : String → String → Bool)
    (tn cls name : String) (hexcl : excl tn name = true) :
    ∀ (items : List (String × Field × Value)) (acc : SchemaBuildState × Nat),
    acc.1.columns.lookup name = none →
    (schemaAddItems excl tn cls acc items).1.1.columns.lookup name = none := by
  intro items
  induction items with
  | nil => intro acc h0; exact h0
  | cons it rest ih =>
    intro acc h0
    rcases acc with ⟨st, pos⟩
    rcases it with ⟨cn, f, v⟩
    simp only [schemaAddItems]
    rcases hac : add_column_to_schema excl tn st pos f cn v with e | st1
    · rcases e <;> simp only <;>
        first
        | exact ih _ h0
        | exact h0
    · exact ih _
        (add_column_keeps_excluded_none excl tn st pos f cn name v st1 hexcl hac h0)

theorem schemaAddContainers_keeps_excluded_none (excl : String → String → Bool)
    (tn name : String) (hexcl : excl tn name = true) :
    ∀ (cs : List ContainerInstance) (acc : SchemaBuildState × Nat),
    acc.1.columns.lookup name = none →
    (schemaAddContainers excl tn acc cs).1.1.columns.lookup name = none := by
  intro cs
  induction cs with
  | nil => intro acc h0; exact h0
  | cons c rest ih =>
    intro acc h0
    simp only [schemaAddContainers]
    rcases hit : schemaAddItems excl tn c.clsName acc c.items with ⟨acc1, e?⟩
    have hp := schemaAddItems_keeps_excluded_none excl tn c.clsName name hexcl
      c.items acc h0
    rw [hit] at hp
    rcases e? with _ | e
    · exact ih acc1 hp
    · exact hp

/-- C3 (amended): a column name matching an exclusion rule for a table
never appears in the built schema; however, the excluded field DOES consume
a position index — the schema loop advances its position counter on an
excluded field exactly as on a written one (only unwritable fields, which
raise `ValueError`, do not advance it), so the remaining columns keep the
positions computed with the excluded field counted. -/
theorem c3_exclusion_amended :
    (∀ (excl : String → String → Bool) (tn : String)
        (cs : List ContainerInstance) (acc : SchemaBuildState × Nat)
        (name : String),
      excl tn name = true →
      acc.1.columns.lookup name = none →
      (schemaAddContainers excl tn acc cs).1.1.columns.lookup name = none) ∧
    (∀ (excl : String → String → Bool) (tn cls : String)
        (st : SchemaBuildState) (pos : Nat) (cn : String) (f : Field) (v : Value)
        (rest : List (String × Field × Value)),
      v ≠ .containerV → v ≠ .mapV → excl tn cn = true →
      schemaAddItems excl tn cls (st, pos) ((cn, f, v) :: rest) =
        schemaAddItems excl tn cls
          ({ st with log := st.log ++ [.debugExcluded tn cn] }, pos + 1) rest) := by
  constructor
  · intro excl tn cs acc name hexcl h0
    exact schemaAddContainers_keeps_excluded_none excl tn name hexcl cs acc h0
  · intro excl tn cls st pos cn f v rest hv1 hv2 hexcl
    simp only [schemaAddItems]
    rw [add_column_excluded excl tn st pos f cn v hv1 hv2 hexcl]

/-- Witness for the amended C3, at the concrete inputs of the
counterexample. -/
theorem c3_exclusion_amended_witness :
    ((schemaAddContainers (fun tn n => tn == "t" && n == "a") "t"
        (emptySchemaState, 0) [c3Both]).1.1.columns.lookup "a" = none) ∧
    (schemaAddItems (fun tn n => tn == "t" && n == "a") "t" "C"
        (emptySchemaState, 0) c3Both.items =
      schemaAddItems (fun tn n => tn == "t" && n == "a") "t" "C"
        ({ emptySchemaState with log := [.debugExcluded "t" "a"] }, 1)
        [("b", {}, Value.scalarV "int" 2)]) :=
  ⟨c3_exclusion_amended.1 (fun tn n => tn == "t" && n == "a") "t" [c3Both]
      (emptySchemaState, 0) "a" rfl rfl,
   c3_exclusion_amended.2 (fun tn n => tn == "t" && n == "a") "t" "C"
      emptySchemaState 0 "a" {} (Value.scalarV "int" 1)
      [("b", {}, Value.scalarV "int" 2)] (by decide) (by decide) rfl⟩

/-! ### Claim C10 -/

/-- C10: Default string width from the first value — a string field with no
declared maximum length fixes the column byte width at schema-build time to
the UTF-8 encoded byte length of the first record's value: the schema gets
a `StringCol` of that itemsize, a string transform of that width is
registered, and the registered chain encodes every subsequent value with
that same fixed width. -/
theorem c10_default_string_width (excl : String → String → Bool) (tn : String)
    (st : SchemaBuildState) (pos : Nat) (f : Field) (name s : String)
    (hml : f.max_length = none)
    (hexcl : excl tn name = false)
    (hdup : st.columns.lookup name = none)
    (huser : st.transforms.filter (fun p => p.1 = name) = []) :
    add_column_to_schema excl tn st pos f name (.strV s) =
      .ok { columns := st.columns ++
              [(name, { coltype := "StringCol", itemsize := some (utf8Len s) })],
            meta := updateAttr
              (updateAttrs st.meta (transformMeta name (.stringTr (utf8Len s))))
              (name ++ "_DESC") (.strA f.description),
            transforms := st.transforms ++ [(name, .stringTr (utf8Len s))],
            log := st.log ++ [.debugAddedCol tn name] } ∧
    (∀ s2, applyChainFwd (st.transforms ++ [(name, .stringTr (utf8Len s))]) name
        (.strV s2) = .ok (.strV (utf8Truncate s2 (utf8Len s)))) := by
  constructor
  · simp [add_column_to_schema, hexcl, hdup, applyChainFwd, huser,
      autoEnumStep, autoQuantStep, storageDispatch, hml, pyOrNat,
      List.filter_append, pure, Except.pure]
  · intro s2
    simp [applyChainFwd, List.filter_append, huser, ColumnTransform.fwd]

/-- Witness for C10: a first value of 2 bytes fixes the width at 2; a later
longer value is encoded into those 2 bytes. -/
theorem c10_default_string_width_witness :
    (add_column_to_schema (fun _ _ => false) "t" emptySchemaState 0
        { max_length := none } "n" (.strV "ab") =
      .ok { columns := [("n", { coltype := "StringCol", itemsize := some 2 })],
            meta := [("n_TRANSFORM", .strA "string"), ("n_MAXLEN", .intA 2),
                     ("n_DESC", .strA "")],
            transforms := [("n", .stringTr 2)],
            log := [.debugAddedCol "t" "n"] }) ∧
    (applyChainFwd [("n", .stringTr 2)] "n" (.strV "wxyz") =
      .ok (.strV (utf8Truncate "wxyz" 2))) := by
  have h := c10_default_string_width (fun _ _ => false) "t" emptySchemaState 0
    { max_length := none } "n" "ab" rfl rfl rfl rfl
  constructor
  · rw [h.1]
    rfl
  · exact h.2 "wxyz"

/-! ### Claim C2 -/

/-- The full suffix set named by the claim (the spec's attribute naming
convention table). -/
def FULL_SUFFIXES : List String :=
  ["_DESC", "_ENUM", "_TIME_FORMAT", "_TIME_SCALE", "_TRANSFORM",
   "_TRANSFORM_SCALE", "_TRANSFORM_OFFSET", "_TRANSFORM_DTYPE", "_UNIT",
   "_MAXLEN"]

/-- The claim's metadata-assignment test, following the claim's words: after
stripping any of the known suffixes (those of the full set the key ends
with, or none) and stripping the type's prefix, the remaining key equals
one of that type's declared field names. -/
def claimMatches (key : String) (ctr : ContainerType) (pfx : String) : Bool :=
  (key :: FULL_SUFFIXES.filterMap (fun suffix =>
      if sEndsWith key suffix then some (sDropRight key suffix.data.length)
      else none)).any (fun base =>
    let base2 :=
      if pfx ≠ "" ∧ sStartsWith base (pfx ++ "_") = true then
        sDropLeft base (pfx.data.length + 1)
      else base
    ctr.fields.contains base2)

/-- A requested type `A` declaring field `s`. -/
def c2A : ContainerType := { clsName := "A", fields := ["s"] }

/-- A requested type `B` declaring field `t`. -/
def c2B : ContainerType := { clsName := "B", fields := ["t"] }

/-- Counterexample to C2: the attribute `s_MAXLEN` matches type `A` under
the claim's rule (strip the known suffix `_MAXLEN`, leaving the declared
field `s`) and does not match type `B`, so by the claim it must be assigned
to `A` only.  The code's `ALLOWED_SUFFIXES` has no `_MAXLEN`, so
`_handle_metadata` finds no owner and attaches the attribute to every
requested type — `B` receives it. -/
theorem c2_counterexample :
    ((((handle_metadata [("s_MAXLEN", .intA 3)] [(c2A, ""), (c2B, "")]).lookup
        "B").getD []).lookup "s_MAXLEN" = some (.intA 3)) ∧
    claimMatches "s_MAXLEN" c2A "" = true ∧
    claimMatches "s_MAXLEN" c2B "" = false := by
  decide

theorem lookup_mem {α : Type} {l : List (String × α)} {k : String} {v : α}
    (h : l.lookup k = some v) : (k, v) ∈ l := by
  induction l with
  | nil => simp [List.lookup] at h
  | cons kv rest ih =>
    rcases kv with ⟨k1, v1⟩
    by_cases he : k = k1
    · subst he
      simp at h
      rw [h]
      exact List.mem_cons_self _ _
    · rw [lookup_cons_ne _ _ _ _ he] at h
      exact List.mem_cons_of_mem _ (ih h)

theorem lookup_none_of_not_mem {α : Type} {l : List (String × α)} {k : String}
    (h : k ∉ l.map (fun p => p.1)) : l.lookup k = none := by
  induction l with
  | nil => rfl
  | cons kv rest ih =>
    rcases kv with ⟨k1, v1⟩
    simp only [List.map_cons, List.mem_cons] at h
    push_neg at h
    rw [lookup_cons_ne _ _ _ _ h.1]
    exact ih h.2

/-- Lookup in a filtered association list with duplicate-free keys. -/
theorem lookup_filter {α : Type} (p : String × α → Bool) :
    ∀ (l : List (String × α)), (l.map (fun q => q.1)).Nodup →
    ∀ (k : String) (v : α),
    ((l.filter p).lookup k = some v ↔ l.lookup k = some v ∧ p (k, v) = true) := by
  intro l
  induction l with
  | nil => intro _ k v; simp [List.lookup]
  | cons kv rest ih =>
    intro hnd k v
    rcases kv with ⟨k1, v1⟩
    simp only [List.map_cons, List.nodup_cons] at hnd
    by_cases he : k = k1
    · subst he
      have hrest : List.lookup k (rest.filter p) = none :=
        lookup_none_of_not_mem (fun hm => hnd.1 (by
          rcases List.mem_map.mp hm with ⟨q, hq, hq1⟩
          exact List.mem_map.mpr ⟨q, List.mem_of_mem_filter hq, hq1⟩))
      by_cases hp : p (k, v1) = true
      · rw [List.filter_cons_of_pos hp]
        constructor
        · intro hv
          have hv1 : v1 = v := by simpa using hv
          subst hv1
          exact ⟨by simp, hp⟩
        · intro hv
          have hv1 : v1 = v := by simpa using hv.1
          subst hv1
          simp
      · rw [List.filter_cons_of_neg (by simpa using hp), hrest]
        constructor
        · intro hv
          simp at hv
        · intro hv
          have hv1 : v1 = v := by simpa using hv.1
          subst hv1
          exact absurd hv.2 hp
    · have hstep : List.lookup k ((k1, v1) :: rest) = List.lookup k rest :=
        lookup_cons_ne _ _ _ _ he
      by_cases hp : p (k1, v1) = true
      · rw [List.filter_cons_of_pos hp, lookup_cons_ne _ _ _ _ he, hstep]
        exact ih hnd.2 k v
      · rw [List.filter_cons_of_neg (by simpa using hp), hstep]
        exact ih hnd.2 k v

/-- The first phase of `_handle_metadata` collects exactly the attributes
the `_is_allowed` test accepts, in attribute order. -/
theorem handleMetaContainer_eq_filter (attrs : List (String × AttrVal))
    (ctr : ContainerType) (pfx : String) :
    handleMetaContainer attrs ctr pfx =
      attrs.filter (fun kv => is_allowed kv.1 ctr pfx) := by
  suffices hgen : ∀ (l : List (String × AttrVal)) (acc : List (String × AttrVal)),
      l.foldl (fun acc kv => if is_allowed kv.1 ctr pfx then acc ++ [kv] else acc)
        acc = acc ++ l.filter (fun kv => is_allowed kv.1 ctr pfx) by
    have h := hgen attrs []
    simpa [handleMetaContainer] using h
  intro l
  induction l with
  | nil => intro acc; simp
  | cons kv rest ih =>
    intro acc
    by_cases hp : is_allowed kv.1 ctr pfx = true
    · rw [List.foldl_cons, if_pos hp,
        @List.filter_cons_of_pos (String × AttrVal)
          (fun kv => is_allowed kv.1 ctr pfx) kv rest hp, ih (acc ++ [kv])]
      simp
    · rw [List.foldl_cons, if_neg hp,
        @List.filter_cons_of_neg (String × AttrVal)
          (fun kv => is_allowed kv.1 ctr pfx) kv rest hp]
      exact ih acc

theorem handle_metadata_lookup (attrs : List (String × AttrVal))
    (pairs : List (ContainerType × String)) (ctr : ContainerType) (pfx : String)
    (hmem : (ctr, pfx) ∈ pairs)
    (hcls : (pairs.map (fun p => p.1.clsName)).Nodup) :
    (handle_metadata attrs pairs).lookup ctr.clsName =
      some (handleMetaContainer attrs ctr pfx ++
        attrs.filter (fun kv => !(usedKeys attrs pairs).contains kv.1)) := by
  have hform : handle_metadata attrs pairs =
      pairs.map (fun p => (p.1.clsName, handleMetaContainer attrs p.1 p.2 ++
        attrs.filter (fun kv => !(usedKeys attrs pairs).contains kv.1))) := by
    simp [handle_metadata, List.map_map]
  rw [hform]
  apply lookup_of_mem_of_nodup
  · exact List.mem_map.mpr ⟨(ctr, pfx), hmem, rfl⟩
  · rw [List.map_map]
    exact hcls

theorem usedKeys_contains_iff (attrs : List (String × AttrVal))
    (pairs : List (ContainerType × String)) (key : String)
    (hk : key ∈ attrs.map (fun p => p.1)) :
    ((usedKeys attrs pairs).contains key = true ↔
      ∃ p ∈ pairs, is_allowed key p.1 p.2 = true) := by
  rw [List.elem_iff]
  unfold usedKeys
  rw [List.mem_flatten]
  constructor
  · rintro ⟨s, hs, hks⟩
    rcases List.mem_map.mp hs with ⟨p, hp, hsp⟩
    rw [← hsp] at hks
    rcases List.mem_map.mp hks with ⟨kv, hkv, hkv1⟩
    have hall := List.of_mem_filter hkv
    rw [hkv1] at hall
    exact ⟨p, hp, hall⟩
  · rintro ⟨p, hp, hall⟩
    rcases List.mem_map.mp hk with ⟨kv, hkv, hkv1⟩
    refine ⟨(attrs.filter (fun kv => is_allowed kv.1 p.1 p.2)).map (fun kv => kv.1),
      List.mem_map.mpr ⟨p, hp, rfl⟩, ?_⟩
    refine List.mem_map.mpr ⟨kv, ?_, hkv1⟩
    apply List.mem_filter.mpr
    exact ⟨hkv, by rw [hkv1]; exact hall⟩

/-- C2 (amended): for every header attribute and every requested type, the
attribute is assigned to that type's metadata exactly when either (a) the
code's `_is_allowed` test accepts it — for some suffix of the 7-element
`ALLOWED_SUFFIXES` set (which has no `_MAXLEN`, `_TRANSFORM_OFFSET` or
`_TRANSFORM_DTYPE`; the latter two are matched through the `_TRANSFORM`
split), the part of the key before the FIRST occurrence of that suffix,
after PREPENDING the type's prefix (not stripping it), equals one of that
type's declared field names — or (b) the attribute is so accepted by no
requested type, in which case it is attached to every requested type. -/
theorem c2_metadata_partition_amended (attrs : List (String × AttrVal))
    (pairs : List (ContainerType × String)) (ctr : ContainerType) (pfx : String)
    (key : String) (v : AttrVal)
    (hmem : (ctr, pfx) ∈ pairs)
    (hcls : (pairs.map (fun p => p.1.clsName)).Nodup)
    (hattr : (attrs.map (fun p => p.1)).Nodup) :
    ((((handle_metadata attrs pairs).lookup ctr.clsName).getD []).lookup key =
        some v) ↔
      (attrs.lookup key = some v ∧
        (is_allowed key ctr pfx = true ∨
          ∀ p ∈ pairs, is_allowed key p.1 p.2 = false)) := by
  rw [handle_metadata_lookup attrs pairs ctr pfx hmem hcls]
  simp only [Option.getD_some]
  rw [List.lookup_append, handleMetaContainer_eq_filter]
  rcases h1 : (attrs.filter (fun kv => is_allowed kv.1 ctr pfx)).lookup key
    with _ | v1
  · rw [h1]
    simp only [Option.none_or]
    rw [lookup_filter _ attrs hattr key v]
    constructor
    · rintro ⟨hlk, hglob⟩
      refine ⟨hlk, Or.inr ?_⟩
      intro p hp
      by_contra hcon
      have hcon2 : is_allowed key p.1 p.2 = true := by
        cases hal : is_allowed key p.1 p.2 with
        | true => rfl
        | false => exact absurd hal hcon
      have hc := (usedKeys_contains_iff attrs pairs key
        (List.mem_map.mpr ⟨(key, v), lookup_mem hlk, rfl⟩)).mpr ⟨p, hp, hcon2⟩
      rw [hc] at hglob
      simp at hglob
    · rintro ⟨hlk, hor⟩
      rcases hor with hall | hnone
      · exfalso
        have := (lookup_filter (fun kv => is_allowed kv.1 ctr pfx) attrs hattr
          key v).mpr ⟨hlk, hall⟩
        rw [h1] at this
        exact Option.noConfusion this
      · refine ⟨hlk, ?_⟩
        have hnc : ¬ (usedKeys attrs pairs).contains key = true := by
          intro hc
          rcases (usedKeys_contains_iff attrs pairs key
            (List.mem_map.mpr ⟨(key, v), lookup_mem hlk, rfl⟩)).mp hc
            with ⟨p, hp, hal⟩
          rw [hnone p hp] at hal
          exact Bool.noConfusion hal
        simp only [Bool.not_eq_true] at hnc
        rw [hnc]
        rfl
  · -- the attribute was accepted for this container
    have hsome := (lookup_filter (fun kv => is_allowed kv.1 ctr pfx) attrs hattr
      key v1).mp h1
    rw [h1]
    simp only [Option.or_some, Option.some.injEq]
    constructor
    · intro hv
      subst hv
      exact ⟨hsome.1, Or.inl hsome.2⟩
    · rintro ⟨hlk, _⟩
      rw [hsome.1] at hlk
      exact Option.some.inj hlk

/-- Witness for the amended C2, at the counterexample's concrete input. -/
theorem c2_metadata_partition_amended_witness :
    ((((handle_metadata [("s_MAXLEN", AttrVal.intA 3)] [(c2A, ""), (c2B, "")]).lookup
        c2B.clsName).getD []).lookup "s_MAXLEN" = some (AttrVal.intA 3)) ↔
      (([("s_MAXLEN", AttrVal.intA 3)] : List (String × AttrVal)).lookup "s_MAXLEN" =
          some (AttrVal.intA 3) ∧
        (is_allowed "s_MAXLEN" c2B "" = true ∨
          ∀ p ∈ [(c2A, ""), (c2B, "")], is_allowed "s_MAXLEN" p.1 p.2 = false)) :=
  c2_metadata_partition_amended [("s_MAXLEN", .intA 3)] [(c2A, ""), (c2B, "")]
    c2B "" "s_MAXLEN" (.intA 3) (by decide) (by decide) (by decide)

/-! ### Claim C5 -/

/-- `mapM` over `Except` succeeds exactly with one output per input, in
order, each produced by `f` from the input at the same index alone. -/
theorem mapM_ok_pointwise {α β : Type} (f : α → Except PyErr β) :
    ∀ (l : List α) (out : List β), l.mapM f = .ok out →
    out.length = l.length ∧
    ∀ (i : Nat) (a : α), l[i]? = some a →
      ∃ b, out[i]? = some b ∧ f a = .ok b := by
  intro l
  induction l with
  | nil =>
    intro out h
    rw [List.mapM_nil] at h
    have hout : out = [] := (Except.ok.inj h).symm
    subst hout
    exact ⟨rfl, fun i a ha => by simp at ha⟩
  | cons a l ih =>
    intro out h
    rw [List.mapM_cons] at h
    cases hfa : f a with
    | error e =>
      rw [hfa] at h
      exact Except.noConfusion h
    | ok b =>
      rw [hfa] at h
      cases hml : l.mapM f with
      | error e =>
        rw [hml] at h
        exact Except.noConfusion h
      | ok bs =>
        rw [hml] at h
        have hout : out = b :: bs := (Except.ok.inj h).symm
        subst hout
        obtain ⟨hlen, hpt⟩ := ih bs hml
        refine ⟨by simp [hlen], ?_⟩
        intro i a1 ha
        cases i with
        | zero =>
          simp only [List.getElem?_cons_zero, Option.some.injEq] at ha
          subst ha
          exact ⟨b, by simp, hfa⟩
        | succ j =>
          simp only [List.getElem?_cons_succ] at ha ⊢
          exact hpt j a1 ha

theorem setup_table_ok_tab (rs : ReaderState) (tn : String)
    (ctrs : List ContainerType) (pfxs : List String) (ig : List String)
    (rs1 : ReaderState) (tab : TableOnDisk)
    (h : setup_table rs tn ctrs pfxs ig = .ok (rs1, tab)) :
    rs.file.lookup tn = some tab := by
  unfold setup_table at h
  split at h
  · exact Except.noConfusion h
  · rename_i tab0 hlook
    split at h
    · exact Except.noConfusion h
    · have hp := Except.ok.inj h
      have h2 : tab0 = tab := congrArg Prod.snd hp
      rw [hlook, h2]

/-- C5: Reader iteration protocol — a successful `read` of a table with `R`
stored rows yields exactly `R` items, one per stored row index in ascending
order starting at 0, and the item at index `i` is freshly materialized from
row `i` alone (`materializeRowItem` of that row and the setup-time caches),
so advancing the iteration never mutates previously yielded records. -/
theorem c5_reader_iteration (rs rs1 : ReaderState) (tn : String)
    (ctrs : List ContainerType) (ri : Bool) (pfxArg : PfxArg)
    (ig : Option (List String)) (tab : TableOnDisk) (items : List ReadItem)
    (hfile : rs.file.lookup tn = some tab)
    (hread : read rs tn ctrs ri pfxArg ig = (rs1, .ok items)) :
    items.length = tab.rows.length ∧
    ∀ (i : Nat) (row : List (String × Value)), tab.rows[i]? = some row →
      ∃ item, items[i]? = some item ∧
        materializeRowItem ((rs1.cols_to_read.lookup tn).getD [])
          ((rs1.transforms.lookup tn).getD [])
          (ctrs.zip ((resolvePfx pfxArg ctrs).zip
            ((rs1.missing_cols.lookup tn).getD [])))
          ((rs1.metaTables.lookup tn).getD []) ri row = .ok item := by
  unfold read at hread
  by_cases hlen : (resolvePfx pfxArg ctrs).length ≠ ctrs.length
  · rw [if_pos hlen] at hread
    have h2 := congrArg Prod.snd hread
    simp at h2
  · rw [if_neg hlen] at hread
    split at hread
    · rename_i e heq
      have h2 := congrArg Prod.snd hread
      simp at h2
    · rename_i rs1' tab' heq
      have h1 := congrArg Prod.fst hread
      have h2 := congrArg Prod.snd hread
      simp only at h1 h2
      subst h1
      have htab : tab' = tab := by
        by_cases hct : rs.tables.contains tn = true
        · rw [if_pos hct] at heq
          rw [hfile] at heq
          have hp : ((rs, tab) : ReaderState × TableOnDisk) = (rs1', tab') :=
            Except.ok.inj heq
          have h3 : tab = tab' := congrArg Prod.snd hp
          exact h3.symm
        · rw [if_neg hct] at heq
          have hl := setup_table_ok_tab rs tn ctrs (resolvePfx pfxArg ctrs)
            (ig.getD []) rs1' tab' heq
          rw [hfile] at hl
          exact (Option.some.inj hl).symm
      subst htab
      obtain ⟨hl, hpt⟩ := mapM_ok_pointwise _ _ items h2
      exact ⟨hl, fun i row hrow => hpt i row hrow⟩

/-- A one-row table with an enum column (used to instantiate theorems). -/
def c5Tab : TableOnDisk :=
  { colsDesc := [("x", { coltype := "Int64Col", pos := some 0 })],
    attrs := [("x_ENUM", .strA "E")],
    rows := [[("x", .scalarV "int" 1)]] }

/-- A file holding `c5Tab` at node `/t`. -/
def c5File : List (String × TableOnDisk) := [("/t", c5Tab)]

/-- The container class matching `c5Tab`. -/
def c5Ctr : ContainerType := { clsName := "C", fields := ["x"] }

/-- The single record materialized from `c5Tab`'s one row. -/
def c5Item : ReadItem :=
  .single { clsName := "C", pfx := "",
            fields := [("x", .fromTable (.enumV "E" 1))],
            meta := [("x_ENUM", .strA "E")] }

/-- Witness for C5: the theorem applied to a concrete one-row table. -/
theorem c5_reader_iteration_witness :
    ∃ (rs1 : ReaderState),
      read (HDF5TableReader_init c5File) "/t" [c5Ctr] false PfxArg.noPfx none =
        (rs1, .ok [c5Item]) ∧
      ([c5Item] : List ReadItem).length = c5Tab.rows.length :=
  ⟨(read (HDF5TableReader_init c5File) "/t" [c5Ctr] false PfxArg.noPfx none).1,
   rfl,
   (c5_reader_iteration (HDF5TableReader_init c5File) _ "/t" [c5Ctr] false
      PfxArg.noPfx none c5Tab [c5Item] rfl rfl).1⟩

/-! ### Claim C6 -/

theorem stripPfx_addPfx (pfx f : String) : stripPfx pfx (addPfx pfx f) = f := by
  unfold addPfx stripPfx
  by_cases hp : pfx = ""
  · subst hp
    simp
  · rw [if_neg hp, if_pos ?_]
    · show String.mk (((pfx ++ "_") ++ f).data.drop (pfx.data.length + 1)) = f
      rw [String.data_append, String.data_append]
      have h1 : (pfx.data ++ "_".data).length = pfx.data.length + 1 := by simp
      rw [← h1, List.drop_left]
    · refine ⟨hp, ?_⟩
      unfold sStartsWith
      rw [String.data_append, String.data_append, List.append_assoc]
      exact List.isPrefixOf_iff_prefix.mpr (List.prefix_append _ _)

theorem addPfx_inj (pfx : String) {f g : String} (h : addPfx pfx f = addPfx pfx g) :
    f = g := by
  have h2 := congrArg (fun s => stripPfx pfx s) h
  simpa [stripPfx_addPfx] using h2

/-- The first reader loop only collects names out of the traversed column
list. -/
theorem mapTableCols_subset (tnL : String) (ctr : ContainerType) (pfx : String) :
    ∀ (cns : List String) (acc : List String × List LogMsg) (c : String),
    c ∈ (mapTableCols tnL ctr pfx acc cns).1 → c ∈ acc.1 ∨ c ∈ cns := by
  intro cns
  induction cns with
  | nil => intro acc c hc; exact Or.inl hc
  | cons cn rest ih =>
    intro acc c hc
    rcases acc with ⟨cols, log⟩
    simp only [mapTableCols] at hc
    split at hc
    · rcases ih _ c hc with h1 | h1
      · rcases List.mem_append.mp h1 with h2 | h2
        · exact Or.inl h2
        · exact Or.inr (by simpa using Or.inl (by simpa using h2))
      · exact Or.inr (List.mem_cons_of_mem _ h1)
    · rcases ih _ c hc with h1 | h1
      · exact Or.inl h1
      · exact Or.inr (List.mem_cons_of_mem _ h1)

/-- The first reader loop never logs warnings. -/
theorem mapTableCols_count (tnL : String) (ctr : ContainerType) (pfx : String)
    (msg : LogMsg) (hmsg : ∀ a b c, msg ≠ .debugColNotInContainer a b c) :
    ∀ (cns : List String) (acc : List String × List LogMsg),
    (mapTableCols tnL ctr pfx acc cns).2.count msg = acc.2.count msg := by
  intro cns
  induction cns with
  | nil => intro acc; rfl
  | cons cn rest ih =>
    intro acc
    rcases acc with ⟨cols, log⟩
    simp only [mapTableCols]
    split
    · rw [ih]
    · rw [ih]
      simp only [List.count_append]
      have h0 : List.count msg
          [LogMsg.debugColNotInContainer tnL (stripPfx pfx cn) ctr.clsName] = 0 :=
        List.count_eq_zero.mpr (by
          simp only [List.mem_singleton]
          exact hmsg tnL (stripPfx pfx cn) ctr.clsName)
      rw [h0]
      omega

/-- The missing-fields loop preserves already-recorded missing fields and
records every declared field outside the ignore-list whose (prefixed)
column name was not collected. -/
theorem mapMissingFields_mem (tnL : String) (ctr : ContainerType) (pfx : String)
    (ignore : List String) (cols : List String) (f : String) :
    ∀ (fields : List String) (acc : List String × List LogMsg),
    (f ∈ acc.1 ∨
      (f ∈ fields ∧ ignore.contains f = false ∧
        cols.contains (addPfx pfx f) = false)) →
    f ∈ (mapMissingFields tnL ctr pfx ignore cols acc fields).1 := by
  intro fields
  induction fields with
  | nil =>
    intro acc h
    rcases h with h | ⟨h, _⟩
    · exact h
    · simp at h
  | cons g rest ih =>
    intro acc h
    rcases acc with ⟨miss, log⟩
    simp only [mapMissingFields]
    by_cases hg : ignore.contains g = true
    · rw [if_pos hg]
      apply ih
      rcases h with h | ⟨hmem, hig, hcol⟩
      · exact Or.inl h
      · rcases List.mem_cons.mp hmem with he | hm
        · subst he
          rw [hg] at hig
          exact Bool.noConfusion hig
        · exact Or.inr ⟨hm, hig, hcol⟩
    · rw [if_neg hg]
      by_cases hc : cols.contains (addPfx pfx g) = true
      · rw [if_pos hc]
        apply ih
        rcases h with h | ⟨hmem, hig, hcol⟩
        · exact Or.inl h
        · rcases List.mem_cons.mp hmem with he | hm
          · subst he
            rw [hc] at hcol
            exact Bool.noConfusion hcol
          · exact Or.inr ⟨hm, hig, hcol⟩
      · rw [if_neg hc]
        apply ih
        rcases h with h | ⟨hmem, hig, hcol⟩
        · exact Or.inl (List.mem_append.mpr (Or.inl h))
        · rcases List.mem_cons.mp hmem with he | hm
          · subst he
            exact Or.inl (List.mem_append.mpr (Or.inr (by simp)))
          · exact Or.inr ⟨hm, hig, hcol⟩

/-- Exact count of one warning message produced by the missing-fields loop. -/
theorem mapMissingFields_count (tnL : String) (ctr : ContainerType) (pfx : String)
    (ignore : List String) (cols : List String) (msg : LogMsg) :
    ∀ (fields : List String) (acc : List String × List LogMsg),
    (mapMissingFields tnL ctr pfx ignore cols acc fields).2.count msg =
      acc.2.count msg +
      (fields.filter (fun g => !(ignore.contains g) &&
        !(cols.contains (addPfx pfx g)) &&
        (LogMsg.warnMissingCol tnL (addPfx pfx g) ctr.clsName == msg))).length := by
  intro fields
  induction fields with
  | nil =>
    intro acc
    rcases acc with ⟨miss, log⟩
    simp [mapMissingFields]
  | cons g rest ih =>
    intro acc
    rcases acc with ⟨miss, log⟩
    simp only [mapMissingFields]
    by_cases hg : ignore.contains g = true
    · rw [if_pos hg, ih,
        @List.filter_cons_of_neg _ (fun g => !(ignore.contains g) &&
          !(cols.contains (addPfx pfx g)) &&
          (LogMsg.warnMissingCol tnL (addPfx pfx g) ctr.clsName == msg)) g rest
          (by
            show ¬ ((!(ignore.contains g) && !(cols.contains (addPfx pfx g)) &&
              (LogMsg.warnMissingCol tnL (addPfx pfx g) ctr.clsName == msg)) = true)
            rw [hg]
            simp)]
    · have hgb : ignore.contains g = false := by
        cases hx : ignore.contains g with
        | true => exact absurd hx hg
        | false => rfl
      rw [if_neg hg]
      by_cases hc : cols.contains (addPfx pfx g) = true
      · rw [if_pos hc, ih,
          @List.filter_cons_of_neg _ (fun g => !(ignore.contains g) &&
            !(cols.contains (addPfx pfx g)) &&
            (LogMsg.warnMissingCol tnL (addPfx pfx g) ctr.clsName == msg)) g rest
            (by
              show ¬ ((!(ignore.contains g) && !(cols.contains (addPfx pfx g)) &&
                (LogMsg.warnMissingCol tnL (addPfx pfx g) ctr.clsName == msg)) = true)
              rw [hc]
              simp)]
      · have hcb : cols.contains (addPfx pfx g) = false := by
          cases hx : cols.contains (addPfx pfx g) with
          | true => exact absurd hx hc
          | false => rfl
        rw [if_neg hc, ih]
        simp only [List.count_append]
        by_cases hbeq :
            (LogMsg.warnMissingCol tnL (addPfx pfx g) ctr.clsName == msg) = true
        · have heq : LogMsg.warnMissingCol tnL (addPfx pfx g) ctr.clsName = msg :=
            beq_iff_eq.mp hbeq
          have h1 : List.count msg
              [LogMsg.warnMissingCol tnL (addPfx pfx g) ctr.clsName] = 1 := by
            rw [heq]
            simp
          rw [h1,
            @List.filter_cons_of_pos _ (fun g => !(ignore.contains g) &&
              !(cols.contains (addPfx pfx g)) &&
              (LogMsg.warnMissingCol tnL (addPfx pfx g) ctr.clsName == msg)) g rest
              (by
                show (!(ignore.contains g) && !(cols.contains (addPfx pfx g)) &&
                  (LogMsg.warnMissingCol tnL (addPfx pfx g) ctr.clsName == msg)) = true
                rw [hgb, hcb, hbeq]
                rfl)]
          simp only [List.length_cons]
          omega
        · have hbeq2 :
              (LogMsg.warnMissingCol tnL (addPfx pfx g) ctr.clsName == msg) = false := by
            cases hx :
                (LogMsg.warnMissingCol tnL (addPfx pfx g) ctr.clsName == msg) with
            | true => exact absurd hx hbeq
            | false => rfl
          have h1 : List.count msg
              [LogMsg.warnMissingCol tnL (addPfx pfx g) ctr.clsName] = 0 :=
            List.count_eq_zero.mpr (by
              simp only [List.mem_singleton]
              intro he
              rw [he] at hbeq2
              simp at hbeq2)
          rw [h1,
            @List.filter_cons_of_neg _ (fun g => !(ignore.contains g) &&
              !(cols.contains (addPfx pfx g)) &&
              (LogMsg.warnMissingCol tnL (addPfx pfx g) ctr.clsName == msg)) g rest
              (by
                show ¬ ((!(ignore.contains g) && !(cols.contains (addPfx pfx g)) &&
                  (LogMsg.warnMissingCol tnL (addPfx pfx g) ctr.clsName == msg)) = true)
                rw [hbeq2]
                simp)]
          omega

/-- Names the first reader loop adds come with a matching declared field. -/
theorem mapTableCols_mem_strong (tnL : String) (ctr : ContainerType) (pfx : String) :
    ∀ (cns : List String) (acc : List String × List LogMsg) (c : String),
    c ∈ (mapTableCols tnL ctr pfx acc cns).1 →
    c ∈ acc.1 ∨ (c ∈ cns ∧ ctr.fields.contains (stripPfx pfx c) = true) := by
  intro cns
  induction cns with
  | nil => intro acc c hc; exact Or.inl hc
  | cons cn rest ih =>
    intro acc c hc
    rcases acc with ⟨cols, log⟩
    simp only [mapTableCols] at hc
    split at hc
    · rename_i hin
      rcases ih _ c hc with h1 | ⟨h1, h2⟩
      · rcases List.mem_append.mp h1 with h2 | h2
        · exact Or.inl h2
        · have hcn : c = cn := by simpa using h2
          subst hcn
          exact Or.inr ⟨List.mem_cons_self _ _, hin⟩
      · exact Or.inr ⟨List.mem_cons_of_mem _ h1, h2⟩
    · rcases ih _ c hc with h1 | ⟨h1, h2⟩
      · exact Or.inl h1
      · exact Or.inr ⟨List.mem_cons_of_mem _ h1, h2⟩

/-- Per-container loop: collected column names always come out of the
table's columns (or the accumulator), each justified by a declared field. -/
theorem mapContainersLoop_mem_strong (tnL : String) (colnames : List String)
    (ignore : List String) :
    ∀ (pairs : List (ContainerType × String))
      (acc : List String × List (List String) × List LogMsg) (c : String),
    c ∈ (mapContainersLoop tnL colnames ignore acc pairs).1 →
    c ∈ acc.1 ∨ (c ∈ colnames ∧
      ∃ p ∈ pairs, p.1.fields.contains (stripPfx p.2 c) = true) := by
  intro pairs
  induction pairs with
  | nil => intro acc c hc; exact Or.inl hc
  | cons pr rest ih =>
    intro acc c hc
    rcases acc with ⟨cols, missing, log⟩
    rcases pr with ⟨ctr, pfx⟩
    simp only [mapContainersLoop] at hc
    rcases ih _ c hc with h1 | ⟨h1, p, hp, h2⟩
    · rcases mapTableCols_mem_strong tnL ctr pfx colnames (cols, log) c h1
        with h2 | ⟨h2, h3⟩
      · exact Or.inl h2
      · exact Or.inr ⟨h2, (ctr, pfx), List.mem_cons_self _ _, h3⟩
    · exact Or.inr ⟨h1, p, List.mem_cons_of_mem _ hp, h2⟩

/-- Per-container loop: already-recorded missing-field lists survive. -/
theorem mapContainersLoop_missing_pres (tnL : String) (colnames : List String)
    (ignore : List String) :
    ∀ (pairs : List (ContainerType × String))
      (acc : List String × List (List String) × List LogMsg) (i : Nat),
    i < acc.2.1.length →
    (mapContainersLoop tnL colnames ignore acc pairs).2.1[i]? = acc.2.1[i]? := by
  intro pairs
  induction pairs with
  | nil => intro acc i hi; rfl
  | cons pr rest ih =>
    intro acc i hi
    rcases acc with ⟨cols, missing, log⟩
    rcases pr with ⟨ctr, pfx⟩
    have hi2 : i < missing.length := hi
    simp only [mapContainersLoop]
    have hlt : i < (missing ++
        [(mapMissingFields tnL ctr pfx ignore
          (mapTableCols tnL ctr pfx (cols, log) colnames).1
          ([], (mapTableCols tnL ctr pfx (cols, log) colnames).2) ctr.fields).1]).length := by
      simp only [List.length_append, List.length_cons, List.length_nil]
      omega
    rw [ih _ i hlt]
    show (missing ++ [_])[i]? = missing[i]?
    rw [List.getElem?_append, if_pos hi2]

/-- Per-container loop: the `k`-th requested pair's missing-field list
records every declared field outside the ignore-list whose prefixed column
name is not a table column. -/
theorem mapContainersLoop_missing_mem (tnL : String) (colnames : List String)
    (ignore : List String) (f : String) :
    ∀ (pairs : List (ContainerType × String)) (k : Nat) (ctr : ContainerType)
      (pfx : String) (acc : List String × List (List String) × List LogMsg),
    (∀ c ∈ acc.1, c ∈ colnames) →
    pairs[k]? = some (ctr, pfx) →
    f ∈ ctr.fields → ignore.contains f = false →
    colnames.contains (addPfx pfx f) = false →
    ∃ ms, (mapContainersLoop tnL colnames ignore acc pairs).2.1[acc.2.1.length + k]? =
      some ms ∧ f ∈ ms := by
  intro pairs
  induction pairs with
  | nil => intro k ctr pfx acc _ hk; simp at hk
  | cons pr rest ih =>
    intro k ctr pfx acc hsub hk hf hig hcoln
    rcases acc with ⟨cols, missing, log⟩
    rcases pr with ⟨ctr1, pfx1⟩
    have hsub2 : ∀ c ∈ cols, c ∈ colnames := hsub
    cases k with
    | zero =>
      simp only [List.getElem?_cons_zero, Option.some.injEq] at hk
      have hctr : ctr1 = ctr := congrArg Prod.fst hk
      have hpfx : pfx1 = pfx := congrArg Prod.snd hk
      have hf1 : f ∈ ctr1.fields := by rw [hctr]; exact hf
      have hcoln1 : colnames.contains (addPfx pfx1 f) = false := by
        rw [hpfx]
        exact hcoln
      show ∃ ms, (mapContainersLoop tnL colnames ignore (cols, missing, log)
        ((ctr1, pfx1) :: rest)).2.1[missing.length + 0]? = some ms ∧ f ∈ ms
      simp only [mapContainersLoop]
      set r1 := mapTableCols tnL ctr1 pfx1 (cols, log) colnames with hr1
      have hsub1 : ∀ c ∈ r1.1, c ∈ colnames := by
        intro c hc
        rcases mapTableCols_subset tnL ctr1 pfx1 colnames (cols, log) c hc with h | h
        · exact hsub2 c h
        · exact h
      have hnotin : r1.1.contains (addPfx pfx1 f) = false := by
        cases hx : r1.1.contains (addPfx pfx1 f) with
        | false => rfl
        | true =>
          exfalso
          have hmem : addPfx pfx1 f ∈ r1.1 := List.elem_iff.mp hx
          have h2 : addPfx pfx1 f ∈ colnames := hsub1 _ hmem
          have h3 : colnames.contains (addPfx pfx1 f) = true := List.elem_iff.mpr h2
          rw [h3] at hcoln1
          exact Bool.noConfusion hcoln1
      set r2 := mapMissingFields tnL ctr1 pfx1 ignore r1.1 ([], r1.2) ctr1.fields
        with hr2
      have hfm : f ∈ r2.1 :=
        mapMissingFields_mem tnL ctr1 pfx1 ignore r1.1 f ctr1.fields ([], r1.2)
          (Or.inr ⟨hf1, hig, hnotin⟩)
      have hidx : (missing ++ [r2.1])[missing.length]? = some r2.1 := by
        rw [List.getElem?_append_right (Nat.le_refl _)]
        simp
      have hpres : (mapContainersLoop tnL colnames ignore
          (r1.1, missing ++ [r2.1], r2.2) rest).2.1[missing.length]? =
          (missing ++ [r2.1])[missing.length]? :=
        mapContainersLoop_missing_pres tnL colnames ignore rest
          (r1.1, missing ++ [r2.1], r2.2) missing.length
          (by simp only [List.length_append, List.length_cons, List.length_nil]; omega)
      exact ⟨r2.1, hpres.trans hidx, hfm⟩
    | succ j =>
      simp only [List.getElem?_cons_succ] at hk
      show ∃ ms, (mapContainersLoop tnL colnames ignore (cols, missing, log)
        ((ctr1, pfx1) :: rest)).2.1[missing.length + (j + 1)]? = some ms ∧ f ∈ ms
      simp only [mapContainersLoop]
      set r1 := mapTableCols tnL ctr1 pfx1 (cols, log) colnames with hr1
      set r2 := mapMissingFields tnL ctr1 pfx1 ignore r1.1 ([], r1.2) ctr1.fields
        with hr2
      have hsub1 : ∀ c ∈ r1.1, c ∈ colnames := by
        intro c hc
        rcases mapTableCols_subset tnL ctr1 pfx1 colnames (cols, log) c hc with h | h
        · exact hsub2 c h
        · exact h
      have hres := ih j ctr pfx (r1.1, missing ++ [r2.1], r2.2) hsub1 hk hf hig hcoln
      obtain ⟨ms, hms, hfms⟩ := hres
      refine ⟨ms, ?_, hfms⟩
      have hcast : (mapContainersLoop tnL colnames ignore
          (r1.1, missing ++ [r2.1], r2.2) rest).2.1[(missing ++ [r2.1]).length + j]? =
          some ms := hms
      have he : missing.length + (j + 1) = (missing ++ [r2.1]).length + j := by
        simp only [List.length_append, List.length_cons, List.length_nil]
        omega
      rw [he]
      exact hcast

/-- The trailing fold of `_map_table_to_containers` never changes the count
of a message that is not `debugUnmappedCol`. -/
theorem unmappedFold_count (tnL : String) (cols : List String) (msg : LogMsg)
    (hmsg : ∀ c, msg ≠ .debugUnmappedCol tnL c) :
    ∀ (cns : List String) (log0 : List LogMsg),
    (cns.foldl (fun log colname =>
      if cols.contains colname then log
      else log ++ [LogMsg.debugUnmappedCol tnL colname]) log0).count msg =
      log0.count msg := by
  intro cns
  induction cns with
  | nil => intro log0; rfl
  | cons cn rest ih =>
    intro log0
    simp only [List.foldl_cons]
    by_cases hc : cols.contains cn = true
    · rw [if_pos hc, ih]
    · rw [if_neg hc, ih]
      simp only [List.count_append]
      have h0 : List.count msg [LogMsg.debugUnmappedCol tnL cn] = 0 :=
        List.count_eq_zero.mpr (by
          simp only [List.mem_singleton]
          exact hmsg cn)
      rw [h0]
      omega

/-- The trailing fold of `_map_table_to_containers` only appends. -/
theorem unmappedFold_mem_of (tnL : String) (cols : List String) (msg : LogMsg) :
    ∀ (cns : List String) (log0 : List LogMsg), msg ∈ log0 →
    msg ∈ cns.foldl (fun log colname =>
      if cols.contains colname then log
      else log ++ [LogMsg.debugUnmappedCol tnL colname]) log0 := by
  intro cns
  induction cns with
  | nil => intro log0 h; exact h
  | cons cn rest ih =>
    intro log0 h
    simp only [List.foldl_cons]
    by_cases hc : cols.contains cn = true
    · rw [if_pos hc]
      exact ih _ h
    · rw [if_neg hc]
      exact ih _ (List.mem_append.mpr (Or.inl h))

/-- Everything the trailing fold adds is a `debugUnmappedCol` message. -/
theorem unmappedFold_mem_inv (tnL : String) (cols : List String) (msg : LogMsg) :
    ∀ (cns : List String) (log0 : List LogMsg),
    msg ∈ cns.foldl (fun log colname =>
      if cols.contains colname then log
      else log ++ [LogMsg.debugUnmappedCol tnL colname]) log0 →
    msg ∈ log0 ∨ ∃ c, msg = LogMsg.debugUnmappedCol tnL c := by
  intro cns
  induction cns with
  | nil => intro log0 h; exact Or.inl h
  | cons cn rest ih =>
    intro log0 h
    simp only [List.foldl_cons] at h
    by_cases hc : cols.contains cn = true
    · rw [if_pos hc] at h
      exact ih _ h
    · rw [if_neg hc] at h
      rcases ih _ h with h1 | h1
      · rcases List.mem_append.mp h1 with h2 | h2
        · exact Or.inl h2
        · exact Or.inr ⟨cn, by simpa using h2⟩
      · exact Or.inr h1

/-- A table column matching no collected name is logged at debug level by
the trailing fold. -/
theorem unmappedFold_adds (tnL : String) (cols : List String) (cn : String)
    (hc : cols.contains cn = false) :
    ∀ (cns : List String) (log0 : List LogMsg), cn ∈ cns →
    LogMsg.debugUnmappedCol tnL cn ∈ cns.foldl (fun log colname =>
      if cols.contains colname then log
      else log ++ [LogMsg.debugUnmappedCol tnL colname]) log0 := by
  intro cns
  induction cns with
  | nil => intro log0 h; simp at h
  | cons c rest ih =>
    intro log0 hmem
    simp only [List.foldl_cons]
    rcases List.mem_cons.mp hmem with he | hm
    · subst he
      rw [if_neg (by rw [hc]; exact Bool.false_ne_true)]
      exact unmappedFold_mem_of tnL cols _ rest _
        (List.mem_append.mpr (Or.inr (by simp)))
    · by_cases h1 : cols.contains c = true
      · rw [if_pos h1]
        exact ih _ hm
      · rw [if_neg h1]
        exact ih _ hm

/-- Shape of the first reader loop's log additions: debug messages only. -/
theorem mapTableCols_log_mem (tnL : String) (ctr : ContainerType) (pfx : String)
    (msg : LogMsg) :
    ∀ (cns : List String) (acc : List String × List LogMsg),
    msg ∈ (mapTableCols tnL ctr pfx acc cns).2 →
    msg ∈ acc.2 ∨ ∃ a b c, msg = LogMsg.debugColNotInContainer a b c := by
  intro cns
  induction cns with
  | nil => intro acc h; exact Or.inl h
  | cons cn rest ih =>
    intro acc h
    rcases acc with ⟨cols, log⟩
    simp only [mapTableCols] at h
    split at h
    · exact ih (cols ++ [cn], log) h
    · rcases ih _ h with h1 | h1
      · rcases List.mem_append.mp h1 with h2 | h2
        · exact Or.inl h2
        · exact Or.inr ⟨tnL, stripPfx pfx cn, ctr.clsName, by simpa using h2⟩
      · exact Or.inr h1

/-- Shape of the missing-fields loop's log additions: every message is a
missing-column warning for one of the traversed declared fields. -/
theorem mapMissingFields_log_mem (tnL : String) (ctr : ContainerType) (pfx : String)
    (ignore cols : List String) (msg : LogMsg) :
    ∀ (fields : List String) (acc : List String × List LogMsg),
    msg ∈ (mapMissingFields tnL ctr pfx ignore cols acc fields).2 →
    msg ∈ acc.2 ∨
      ∃ g ∈ fields, msg = LogMsg.warnMissingCol tnL (addPfx pfx g) ctr.clsName := by
  intro fields
  induction fields with
  | nil => intro acc h; exact Or.inl h
  | cons g rest ih =>
    intro acc h
    rcases acc with ⟨miss, log⟩
    simp only [mapMissingFields] at h
    by_cases hg : ignore.contains g = true
    · rw [if_pos hg] at h
      rcases ih _ h with h1 | ⟨g1, hg1, he⟩
      · exact Or.inl h1
      · exact Or.inr ⟨g1, List.mem_cons_of_mem _ hg1, he⟩
    · rw [if_neg hg] at h
      by_cases hcc : cols.contains (addPfx pfx g) = true
      · rw [if_pos hcc] at h
        rcases ih _ h with h1 | ⟨g1, hg1, he⟩
        · exact Or.inl h1
        · exact Or.inr ⟨g1, List.mem_cons_of_mem _ hg1, he⟩
      · rw [if_neg hcc] at h
        rcases ih _ h with h1 | ⟨g1, hg1, he⟩
        · rcases List.mem_append.mp h1 with h2 | h2
          · exact Or.inl h2
          · exact Or.inr ⟨g, List.mem_cons_self _ _, by simpa using h2⟩
        · exact Or.inr ⟨g1, List.mem_cons_of_mem _ hg1, he⟩

/-- Shape of the container loop's log additions: every warning is a
missing-column warning for a declared field of one of the traversed pairs
(everything else is a debug message). -/
theorem mapContainersLoop_log_mem (tnL : String) (colnames ignore : List String)
    (msg : LogMsg) :
    ∀ (pairs : List (ContainerType × String))
      (acc : List String × List (List String) × List LogMsg),
    msg ∈ (mapContainersLoop tnL colnames ignore acc pairs).2.2 →
    msg ∈ acc.2.2 ∨
      (∃ p ∈ pairs, ∃ g ∈ p.1.fields,
        msg = LogMsg.warnMissingCol tnL (addPfx p.2 g) p.1.clsName) ∨
      (∃ a b c, msg = LogMsg.debugColNotInContainer a b c) := by
  intro pairs
  induction pairs with
  | nil => intro acc h; exact Or.inl h
  | cons pr rest ih =>
    intro acc h
    rcases acc with ⟨cols, missing, log⟩
    rcases pr with ⟨ctr, pfx⟩
    simp only [mapContainersLoop] at h
    rcases ih _ h with h1 | h1 | h1
    · rcases mapMissingFields_log_mem tnL ctr pfx ignore _ msg ctr.fields _ h1
        with h2 | ⟨g, hg, he⟩
      · rcases mapTableCols_log_mem tnL ctr pfx msg colnames (cols, log) h2
          with h3 | h3
        · exact Or.inl h3
        · exact Or.inr (Or.inr h3)
      · exact Or.inr (Or.inl ⟨(ctr, pfx), List.mem_cons_self _ _, g, hg, he⟩)
    · obtain ⟨p, hp, hrest⟩ := h1
      exact Or.inr (Or.inl ⟨p, List.mem_cons_of_mem _ hp, hrest⟩)
    · exact Or.inr (Or.inr h1)

/-- A missing-column warning naming a different class never matches the
missing-fields loop's filter. -/
theorem missingFilter_nil (tnL : String) (ctr1 : ContainerType) (pfx1 : String)
    (ignore cols : List String) (tn cwp cls : String)
    (hne : ctr1.clsName ≠ cls) (fields : List String) :
    fields.filter (fun g => !(ignore.contains g) &&
      !(cols.contains (addPfx pfx1 g)) &&
      (LogMsg.warnMissingCol tnL (addPfx pfx1 g) ctr1.clsName ==
        LogMsg.warnMissingCol tn cwp cls)) = [] := by
  apply List.filter_eq_nil_iff.mpr
  intro g _
  have hb : (LogMsg.warnMissingCol tnL (addPfx pfx1 g) ctr1.clsName ==
      LogMsg.warnMissingCol tn cwp cls) = false := by
    apply beq_false_of_ne
    intro he
    injection he with h1 h2 h3
    exact hne h3
  simp [hb]

/-- The container loop adds no missing-column warning naming a class that
none of the traversed pairs declares. -/
theorem mapContainersLoop_count_zero (tnL : String) (colnames ignore : List String)
    (tn cwp cls : String) :
    ∀ (pairs : List (ContainerType × String))
      (acc : List String × List (List String) × List LogMsg),
    (∀ p ∈ pairs, p.1.clsName ≠ cls) →
    (mapContainersLoop tnL colnames ignore acc pairs).2.2.count
      (LogMsg.warnMissingCol tn cwp cls) =
    acc.2.2.count (LogMsg.warnMissingCol tn cwp cls) := by
  intro pairs
  induction pairs with
  | nil => intro acc _; rfl
  | cons pr rest ih =>
    intro acc hne
    rcases acc with ⟨cols, missing, log⟩
    rcases pr with ⟨ctr, pfx⟩
    simp only [mapContainersLoop]
    set r1 := mapTableCols tnL ctr pfx (cols, log) colnames with hr1
    set r2 := mapMissingFields tnL ctr pfx ignore r1.1 ([], r1.2) ctr.fields with hr2
    have hz := ih (r1.1, missing ++ [r2.1], r2.2)
      (fun p hp => hne p (List.mem_cons_of_mem _ hp))
    have hone := mapMissingFields_count tnL ctr pfx ignore r1.1
      (LogMsg.warnMissingCol tn cwp cls) ctr.fields ([], r1.2)
    rw [missingFilter_nil tnL ctr pfx ignore r1.1 tn cwp cls
      (hne (ctr, pfx) (List.mem_cons_self _ _)) ctr.fields] at hone
    have hone2 : r2.2.count (LogMsg.warnMissingCol tn cwp cls) =
        r1.2.count (LogMsg.warnMissingCol tn cwp cls) := by
      simpa using hone
    have htc := mapTableCols_count tnL ctr pfx (LogMsg.warnMissingCol tn cwp cls)
      (fun a b c he => LogMsg.noConfusion he) colnames (cols, log)
    exact hz.trans (hone2.trans htc)

/-- The container loop logs the missing-column warning for a declared
field of the `k`-th pair exactly once when no other pair names the same
class. -/
theorem mapContainersLoop_count_one (tnL : String) (colnames ignore : List String)
    (f : String) :
    ∀ (pairs : List (ContainerType × String)) (k : Nat) (ctr : ContainerType)
      (pfx : String) (acc : List String × List (List String) × List LogMsg),
    (∀ c ∈ acc.1, c ∈ colnames) →
    pairs[k]? = some (ctr, pfx) →
    (∀ j p, j ≠ k → pairs[j]? = some p → p.1.clsName ≠ ctr.clsName) →
    f ∈ ctr.fields → ctr.fields.Nodup →
    ignore.contains f = false →
    colnames.contains (addPfx pfx f) = false →
    (mapContainersLoop tnL colnames ignore acc pairs).2.2.count
      (LogMsg.warnMissingCol tnL (addPfx pfx f) ctr.clsName) =
    acc.2.2.count (LogMsg.warnMissingCol tnL (addPfx pfx f) ctr.clsName) + 1 := by
  intro pairs
  induction pairs with
  | nil => intro k ctr pfx acc _ hk; simp at hk
  | cons pr rest ih =>
    intro k ctr pfx acc hsub hk huniq hf hnd hig hcoln
    rcases acc with ⟨cols, missing, log⟩
    rcases pr with ⟨ctr1, pfx1⟩
    have hsub2 : ∀ c ∈ cols, c ∈ colnames := hsub
    cases k with
    | zero =>
      simp only [List.getElem?_cons_zero, Option.some.injEq] at hk
      have hctr : ctr1 = ctr := congrArg Prod.fst hk
      have hpfx : pfx1 = pfx := congrArg Prod.snd hk
      rw [← hctr] at hf hnd
      rw [← hpfx] at hcoln
      rw [← hctr, ← hpfx]
      have hrest : ∀ p ∈ rest, p.1.clsName ≠ ctr1.clsName := by
        intro p hp
        obtain ⟨i, hi⟩ := List.mem_iff_getElem?.mp hp
        have hu := huniq (i + 1) p (Nat.succ_ne_zero i) (by
          rw [List.getElem?_cons_succ]
          exact hi)
        rw [← hctr] at hu
        exact hu
      simp only [mapContainersLoop]
      set r1 := mapTableCols tnL ctr1 pfx1 (cols, log) colnames with hr1
      set r2 := mapMissingFields tnL ctr1 pfx1 ignore r1.1 ([], r1.2) ctr1.fields
        with hr2
      have hsub1 : ∀ c ∈ r1.1, c ∈ colnames := by
        intro c hc
        rcases mapTableCols_subset tnL ctr1 pfx1 colnames (cols, log) c hc with h | h
        · exact hsub2 c h
        · exact h
      have hnotin : r1.1.contains (addPfx pfx1 f) = false := by
        cases hx : r1.1.contains (addPfx pfx1 f) with
        | false => rfl
        | true =>
          exfalso
          have hmem : addPfx pfx1 f ∈ r1.1 := List.elem_iff.mp hx
          have h2 : addPfx pfx1 f ∈ colnames := hsub1 _ hmem
          have h3 : colnames.contains (addPfx pfx1 f) = true := List.elem_iff.mpr h2
          rw [h3] at hcoln
          exact Bool.noConfusion hcoln
      have hz := mapContainersLoop_count_zero tnL colnames ignore tnL
        (addPfx pfx1 f) ctr1.clsName rest (r1.1, missing ++ [r2.1], r2.2) hrest
      have hone := mapMissingFields_count tnL ctr1 pfx1 ignore r1.1
        (LogMsg.warnMissingCol tnL (addPfx pfx1 f) ctr1.clsName) ctr1.fields
        ([], r1.2)
      have hfeq : ctr1.fields.filter (fun g => !(ignore.contains g) &&
          !(r1.1.contains (addPfx pfx1 g)) &&
          (LogMsg.warnMissingCol tnL (addPfx pfx1 g) ctr1.clsName ==
            LogMsg.warnMissingCol tnL (addPfx pfx1 f) ctr1.clsName)) =
          ctr1.fields.filter (fun g => g == f) := by
        apply List.filter_congr
        intro g _
        by_cases hgf : g = f
        · subst hgf
          rw [hig, hnotin]
          simp
        · have hb : (LogMsg.warnMissingCol tnL (addPfx pfx1 g) ctr1.clsName ==
              LogMsg.warnMissingCol tnL (addPfx pfx1 f) ctr1.clsName) = false := by
            apply beq_false_of_ne
            intro he
            injection he with h1 h2 h3
            exact hgf (addPfx_inj pfx1 h2)
          rw [hb]
          simp [beq_false_of_ne hgf]
      have hlen : (ctr1.fields.filter (fun g => g == f)).length = 1 := by
        rw [← List.countP_eq_length_filter]
        exact List.count_eq_one_of_mem hnd hf
      rw [hfeq, hlen] at hone
      have htc := mapTableCols_count tnL ctr1 pfx1
        (LogMsg.warnMissingCol tnL (addPfx pfx1 f) ctr1.clsName)
        (fun a b c he => LogMsg.noConfusion he) colnames (cols, log)
      exact hz.trans (hone.trans (congrArg (fun n => n + 1) htc))
    | succ j =>
      simp only [List.getElem?_cons_succ] at hk
      have hne1 : ctr1.clsName ≠ ctr.clsName :=
        huniq 0 (ctr1, pfx1) (Nat.succ_ne_zero j).symm (by rw [List.getElem?_cons_zero])
      have huniq2 : ∀ i p, i ≠ j → rest[i]? = some p →
          p.1.clsName ≠ ctr.clsName := by
        intro i p hij hp
        exact huniq (i + 1) p (fun h => hij (Nat.succ.inj h)) (by
          rw [List.getElem?_cons_succ]
          exact hp)
      simp only [mapContainersLoop]
      set r1 := mapTableCols tnL ctr1 pfx1 (cols, log) colnames with hr1
      set r2 := mapMissingFields tnL ctr1 pfx1 ignore r1.1 ([], r1.2) ctr1.fields
        with hr2
      have hsub1 : ∀ c ∈ r1.1, c ∈ colnames := by
        intro c hc
        rcases mapTableCols_subset tnL ctr1 pfx1 colnames (cols, log) c hc with h | h
        · exact hsub2 c h
        · exact h
      have hres := ih j ctr pfx (r1.1, missing ++ [r2.1], r2.2) hsub1 hk huniq2
        hf hnd hig hcoln
      have hone := mapMissingFields_count tnL ctr1 pfx1 ignore r1.1
        (LogMsg.warnMissingCol tnL (addPfx pfx f) ctr.clsName) ctr1.fields
        ([], r1.2)
      rw [missingFilter_nil tnL ctr1 pfx1 ignore r1.1 tnL (addPfx pfx f)
        ctr.clsName hne1 ctr1.fields] at hone
      have hone2 : r2.2.count (LogMsg.warnMissingCol tnL (addPfx pfx f)
          ctr.clsName) =
          r1.2.count (LogMsg.warnMissingCol tnL (addPfx pfx f) ctr.clsName) := by
        simpa using hone
      have htc := mapTableCols_count tnL ctr1 pfx1
        (LogMsg.warnMissingCol tnL (addPfx pfx f) ctr.clsName)
        (fun a b c he => LogMsg.noConfusion he) colnames (cols, log)
      exact hres.trans (congrArg (fun n => n + 1) (hone2.trans htc))

/-- Inverting a successful `Except` bind. -/
theorem except_bind_ok {α β : Type} (x : Except PyErr α) (g : α → Except PyErr β)
    (b : β) (h : x >>= g = .ok b) : ∃ a, x = .ok a ∧ g a = .ok b := by
  cases x with
  | error e => simp [Bind.bind, Except.bind] at h
  | ok a =>
    refine ⟨a, rfl, ?_⟩
    simpa [Bind.bind, Except.bind] using h

/-- Folding constant `updMap` inserts over keys avoiding `f` preserves
`f`'s binding. -/
theorem foldl_updMap_preserves {α : Type} (c : α) (f : String) :
    ∀ (l : List String) (acc : List (String × α)), f ∉ l →
    (l.foldl (fun a g => updMap a g c) acc).lookup f = acc.lookup f := by
  intro l
  induction l with
  | nil => intro acc _; rfl
  | cons g rest ih =>
    intro acc hnot
    simp only [List.foldl_cons]
    have h1 : f ∉ rest := fun h => hnot (List.mem_cons_of_mem _ h)
    have h2 : f ≠ g := fun h => hnot (h ▸ List.mem_cons_self _ _)
    rw [ih _ h1, updMap_lookup_ne acc g f c h2]

/-- Folding constant `updMap` inserts binds every traversed key to `c`. -/
theorem foldl_updMap_mem {α : Type} (c : α) (f : String) :
    ∀ (l : List String) (acc : List (String × α)), f ∈ l →
    (l.foldl (fun a g => updMap a g c) acc).lookup f = some c := by
  intro l
  induction l with
  | nil => intro acc h; simp at h
  | cons g rest ih =>
    intro acc hmem
    simp only [List.foldl_cons]
    by_cases hr : f ∈ rest
    · exact ih _ hr
    · have hfg : f = g := by
        rcases List.mem_cons.mp hmem with h | h
        · exact h
        · exact absurd h hr
      subst hfg
      rw [foldl_updMap_preserves c f rest _ hr, updMap_lookup_self]

/-- Looking a key up in a keyed `map` over the key list. -/
theorem lookup_map_self {α : Type} (hv : String → α) (f : String) :
    ∀ (l : List String), f ∈ l →
    (l.map (fun g => (g, hv g))).lookup f = some (hv f) := by
  intro l
  induction l with
  | nil => intro hm; simp at hm
  | cons g rest ih =>
    intro hmem
    by_cases hfg : f = g
    · subst hfg
      simp [List.lookup]
    · rw [List.map_cons, lookup_cons_ne _ _ _ _ hfg]
      rcases List.mem_cons.mp hmem with h1 | h1
      · exact absurd h1 hfg
      · exact ih h1

/-- A field recorded as missing is set to `None` in every record
`materializeOne` produces, whatever the row holds. -/
theorem materializeOne_noneInit (cols : List String)
    (trs : List (String × ColumnTransform)) (row : List (String × Value))
    (ctr : ContainerType) (pfx : String) (ms : List String)
    (meta : List (String × AttrVal)) (rec : Record) (f : String)
    (hf : f ∈ ctr.fields) (hm : f ∈ ms)
    (h : materializeOne cols trs row ctr pfx ms meta = .ok rec) :
    rec.fields.lookup f = some FieldInit.noneInit := by
  unfold materializeOne at h
  obtain ⟨kwargs, hkw, hrec⟩ := except_bind_ok _ _ _ h
  simp only [pure, Except.pure] at hrec
  have hr := Except.ok.inj hrec
  subst hr
  have hl : (ctr.fields.map (fun g => (g,
      ((ms.foldl (fun acc g2 => updMap acc g2 FieldInit.noneInit) kwargs).lookup g).getD
        FieldInit.defaultInit))).lookup f = some
      (((ms.foldl (fun acc g2 => updMap acc g2 FieldInit.noneInit) kwargs).lookup f).getD
        FieldInit.defaultInit) :=
    lookup_map_self (fun g =>
      ((ms.foldl (fun acc g2 => updMap acc g2 FieldInit.noneInit) kwargs).lookup g).getD
        FieldInit.defaultInit) f ctr.fields hf
  have hk2 := foldl_updMap_mem FieldInit.noneInit f ms kwargs hm
  rw [hk2] at hl
  simp only [Option.getD_some] at hl
  exact hl

/-- Full characterization of a successful `_setup_table` call. -/
theorem setup_table_ok_eq (rs : ReaderState) (tn : String)
    (ctrs : List ContainerType) (pfxs : List String) (ig : List String)
    (rs1 : ReaderState) (tab : TableOnDisk)
    (h : setup_table rs tn ctrs pfxs ig = .ok (rs1, tab)) :
    rs.file.lookup tn = some tab ∧
    ∃ trs, map_transforms_from_table_header tab
        ((rs.transforms.lookup tn).getD []) = .ok trs ∧
      rs1 = { rs with
        tables := rs.tables ++ [tn],
        cols_to_read := updMap rs.cols_to_read tn
          (map_table_to_containers tn (tab.colsDesc.map (fun nc => nc.1))
            (ctrs.zip pfxs) ig).1,
        missing_cols := updMap rs.missing_cols tn
          (map_table_to_containers tn (tab.colsDesc.map (fun nc => nc.1))
            (ctrs.zip pfxs) ig).2.1,
        metaTables := updMap rs.metaTables tn
          (handle_metadata tab.attrs (ctrs.zip pfxs)),
        transforms := updMap rs.transforms tn trs,
        log := rs.log ++ (map_table_to_containers tn
          (tab.colsDesc.map (fun nc => nc.1)) (ctrs.zip pfxs) ig).2.2 } := by
  unfold setup_table at h
  split at h
  · exact Except.noConfusion h
  · rename_i tab0 hlook
    split at h
    · exact Except.noConfusion h
    · rename_i trs0 htrs
      have hp := Except.ok.inj h
      have htab : tab0 = tab := congrArg Prod.snd hp
      have hrs := congrArg Prod.fst hp
      subst htab
      exact ⟨hlook, trs0, htrs, hrs.symm⟩

/-- A `read` that had to set its table up returns the set-up state and
materializes its items row by row from the set-up caches. -/
theorem read_after_setup (rs rs1 : ReaderState) (tn : String)
    (ctrs : List ContainerType) (pfxArg : PfxArg) (ignore : List String)
    (tab : TableOnDisk) (ri : Bool)
    (hfresh : rs.tables.contains tn = false)
    (hlen : (resolvePfx pfxArg ctrs).length = ctrs.length)
    (hsetup : setup_table rs tn ctrs (resolvePfx pfxArg ctrs) ignore =
      .ok (rs1, tab)) :
    read rs tn ctrs ri pfxArg (some ignore) =
      (rs1, tab.rows.mapM (materializeRowItem
        ((rs1.cols_to_read.lookup tn).getD [])
        ((rs1.transforms.lookup tn).getD [])
        (ctrs.zip ((resolvePfx pfxArg ctrs).zip
          ((rs1.missing_cols.lookup tn).getD [])))
        ((rs1.metaTables.lookup tn).getD []) ri)) := by
  unfold read
  simp only [Option.getD_some]
  rw [if_neg (fun hne => hne hlen)]
  rw [if_neg (by rw [hfresh]; exact Bool.false_ne_true)]
  rw [hsetup]

/-- Inverting a successful `Except.map`. -/
theorem except_map_ok {α β : Type} (x : Except PyErr α) (g : α → β) (b : β)
    (h : x.map g = .ok b) : ∃ a, x = .ok a ∧ g a = b := by
  cases x with
  | error e => simp [Except.map] at h
  | ok a =>
    refine ⟨a, rfl, ?_⟩
    simpa [Except.map] using h

/-- Every item of a successful row loop is a tuple whose `k`-th record has
the field recorded as missing for the `k`-th requested pair set to `None`. -/
theorem mapM_rows_noneInit (cols : List String)
    (trs : List (String × ColumnTransform)) (ctrs : List ContainerType)
    (pfxs : List String) (missing : List (List String))
    (metaPart : List (String × List (String × AttrVal)))
    (rows : List (List (String × Value))) (items : List ReadItem) (k : Nat)
    (ctr : ContainerType) (pfx : String) (ms : List String) (f : String)
    (hctr : ctrs[k]? = some ctr) (hpfx : pfxs[k]? = some pfx)
    (hms : missing[k]? = some ms)
    (hf : f ∈ ctr.fields) (hfm : f ∈ ms)
    (hmm : rows.mapM (materializeRowItem cols trs (ctrs.zip (pfxs.zip missing))
      metaPart true) = .ok items) :
    ∀ item ∈ items, ∃ recs rec, item = ReadItem.tuple recs ∧
      recs[k]? = some rec ∧ rec.fields.lookup f = some FieldInit.noneInit := by
  intro item hitem
  obtain ⟨i, hi⟩ := List.mem_iff_getElem?.mp hitem
  obtain ⟨hlen2, hpt⟩ := mapM_ok_pointwise _ rows items hmm
  have hilt : i < items.length := by
    by_contra hge
    rw [List.getElem?_eq_none (Nat.le_of_not_lt hge)] at hi
    exact Option.noConfusion hi
  have hrlt : i < rows.length := by omega
  obtain ⟨b, hb, hmb⟩ := hpt i (rows[i]) (List.getElem?_eq_getElem hrlt)
  have hbi : b = item := Option.some.inj (hb.symm.trans hi)
  subst hbi
  unfold materializeRowItem at hmb
  obtain ⟨recs, hrecs, hgb⟩ := except_map_ok _ _ _ hmb
  simp only [if_pos] at hgb
  obtain ⟨hlen3, hpt2⟩ := mapM_ok_pointwise _ _ recs hrecs
  have htrip : (ctrs.zip (pfxs.zip missing))[k]? = some (ctr, (pfx, ms)) :=
    List.getElem?_zip_eq_some.mpr ⟨hctr, List.getElem?_zip_eq_some.mpr ⟨hpfx, hms⟩⟩
  obtain ⟨rec, hrec, hmo⟩ := hpt2 k (ctr, (pfx, ms)) htrip
  exact ⟨recs, rec, hgb.symm, hrec,
    materializeOne_noneInit _ _ _ _ _ _ _ _ _ hf hfm hmo⟩

/-- C6: Missing and extra columns on read — with a fresh reader whose
set-up of table `tn` for the requested container types succeeded, for the
`k`-th requested pair `(ctr, pfx)` declaring a field `f` outside the
ignore-list with no matching table column: (a) `f` is recorded in the
`k`-th missing-field list of the set-up caches; (b) `read` returns the
set-up state unchanged and builds its items row by row from those caches,
so setup-time log entries are not repeated per row; (c) every item the row
loop yields is a tuple whose `k`-th record has `f` set to `None`;
(d) the missing-column warning for `f` appears exactly once in the log,
added at setup time; (e) a table column matching no declared field of any
requested type is absent from the columns to read, is logged at debug
level as unmapped, and no new warning names it. -/
theorem c6_missing_extra_columns (rs rs1 : ReaderState) (tn : String)
    (ctrs : List ContainerType) (pfxArg : PfxArg) (ignore : List String)
    (tab : TableOnDisk) (k : Nat) (ctr : ContainerType) (pfx : String)
    (f : String)
    (hfresh : rs.tables.contains tn = false)
    (hlen : (resolvePfx pfxArg ctrs).length = ctrs.length)
    (hsetup : setup_table rs tn ctrs (resolvePfx pfxArg ctrs) ignore =
      .ok (rs1, tab))
    (hk : (ctrs.zip (resolvePfx pfxArg ctrs))[k]? = some (ctr, pfx))
    (hf : f ∈ ctr.fields) (hnd : ctr.fields.Nodup)
    (hig : ignore.contains f = false)
    (hmiss : (tab.colsDesc.map (fun nc => nc.1)).contains (addPfx pfx f) = false)
    (huniq : ∀ j p, j ≠ k → (ctrs.zip (resolvePfx pfxArg ctrs))[j]? = some p →
      p.1.clsName ≠ ctr.clsName) :
    (∃ ms, ((rs1.missing_cols.lookup tn).getD [])[k]? = some ms ∧ f ∈ ms) ∧
    (∀ ri : Bool, read rs tn ctrs ri pfxArg (some ignore) =
      (rs1, tab.rows.mapM (materializeRowItem
        ((rs1.cols_to_read.lookup tn).getD [])
        ((rs1.transforms.lookup tn).getD [])
        (ctrs.zip ((resolvePfx pfxArg ctrs).zip
          ((rs1.missing_cols.lookup tn).getD [])))
        ((rs1.metaTables.lookup tn).getD []) ri))) ∧
    (∀ items, tab.rows.mapM (materializeRowItem
        ((rs1.cols_to_read.lookup tn).getD [])
        ((rs1.transforms.lookup tn).getD [])
        (ctrs.zip ((resolvePfx pfxArg ctrs).zip
          ((rs1.missing_cols.lookup tn).getD [])))
        ((rs1.metaTables.lookup tn).getD []) true) = .ok items →
      ∀ item ∈ items, ∃ recs rec, item = ReadItem.tuple recs ∧
        recs[k]? = some rec ∧ rec.fields.lookup f = some FieldInit.noneInit) ∧
    (rs1.log.count (LogMsg.warnMissingCol tn (addPfx pfx f) ctr.clsName) =
      rs.log.count (LogMsg.warnMissingCol tn (addPfx pfx f) ctr.clsName) + 1) ∧
    (∀ cn, cn ∈ tab.colsDesc.map (fun nc => nc.1) →
      (∀ p ∈ ctrs.zip (resolvePfx pfxArg ctrs),
        p.1.fields.contains (stripPfx p.2 cn) = false) →
      ((rs1.cols_to_read.lookup tn).getD []).contains cn = false ∧
      LogMsg.debugUnmappedCol tn cn ∈ rs1.log ∧
      ∀ cls, LogMsg.warnMissingCol tn cn cls ∈ rs1.log →
        LogMsg.warnMissingCol tn cn cls ∈ rs.log) := by
  obtain ⟨hlook, trsR, htrs, hrs1⟩ := setup_table_ok_eq rs tn ctrs
    (resolvePfx pfxArg ctrs) ignore rs1 tab hsetup
  have hmc : (rs1.missing_cols.lookup tn).getD [] =
      (map_table_to_containers tn (tab.colsDesc.map (fun nc => nc.1))
        (ctrs.zip (resolvePfx pfxArg ctrs)) ignore).2.1 := by
    rw [hrs1]
    simp only [updMap_lookup_self, Option.getD_some]
  have hcr : (rs1.cols_to_read.lookup tn).getD [] =
      (map_table_to_containers tn (tab.colsDesc.map (fun nc => nc.1))
        (ctrs.zip (resolvePfx pfxArg ctrs)) ignore).1 := by
    rw [hrs1]
    simp only [updMap_lookup_self, Option.getD_some]
  have hlog : rs1.log = rs.log ++ (map_table_to_containers tn
      (tab.colsDesc.map (fun nc => nc.1)) (ctrs.zip (resolvePfx pfxArg ctrs))
      ignore).2.2 := by
    rw [hrs1]
  have hpart1 : ∃ ms, ((rs1.missing_cols.lookup tn).getD [])[k]? = some ms ∧
      f ∈ ms := by
    rw [hmc]
    obtain ⟨ms, hms, hfm⟩ := mapContainersLoop_missing_mem tn
      (tab.colsDesc.map (fun nc => nc.1)) ignore f
      (ctrs.zip (resolvePfx pfxArg ctrs)) k ctr pfx ([], [], [])
      (fun c hc => absurd hc (List.not_mem_nil c)) hk hf hig hmiss
    refine ⟨ms, ?_, hfm⟩
    rw [← Nat.zero_add k]
    exact hms
  refine ⟨hpart1, ?_, ?_, ?_, ?_⟩
  · intro ri
    exact read_after_setup rs rs1 tn ctrs pfxArg ignore tab ri hfresh hlen hsetup
  · intro items hmm2 item hitem
    obtain ⟨hctr2, hpfx2⟩ := List.getElem?_zip_eq_some.mp hk
    obtain ⟨ms, hms, hfm⟩ := hpart1
    exact mapM_rows_noneInit _ _ ctrs (resolvePfx pfxArg ctrs) _ _ tab.rows items
      k ctr pfx ms f hctr2 hpfx2 hms hf hfm hmm2 item hitem
  · rw [hlog, List.count_append]
    have hful := unmappedFold_count tn
      (mapContainersLoop tn (tab.colsDesc.map (fun nc => nc.1)) ignore ([], [], [])
        (ctrs.zip (resolvePfx pfxArg ctrs))).1
      (LogMsg.warnMissingCol tn (addPfx pfx f) ctr.clsName)
      (fun c he => LogMsg.noConfusion he)
      (tab.colsDesc.map (fun nc => nc.1))
      (mapContainersLoop tn (tab.colsDesc.map (fun nc => nc.1)) ignore ([], [], [])
        (ctrs.zip (resolvePfx pfxArg ctrs))).2.2
    have hcnt := mapContainersLoop_count_one tn (tab.colsDesc.map (fun nc => nc.1))
      ignore f (ctrs.zip (resolvePfx pfxArg ctrs)) k ctr pfx ([], [], [])
      (fun c hc => absurd hc (List.not_mem_nil c)) hk huniq hf hnd hig hmiss
    have h2 : (map_table_to_containers tn (tab.colsDesc.map (fun nc => nc.1))
        (ctrs.zip (resolvePfx pfxArg ctrs)) ignore).2.2.count
        (LogMsg.warnMissingCol tn (addPfx pfx f) ctr.clsName) = 1 :=
      hful.trans hcnt
    rw [h2]
  · intro cn hcn hext
    have hx0 : (mapContainersLoop tn (tab.colsDesc.map (fun nc => nc.1)) ignore
        ([], [], []) (ctrs.zip (resolvePfx pfxArg ctrs))).1.contains cn = false := by
      cases hx : (mapContainersLoop tn (tab.colsDesc.map (fun nc => nc.1)) ignore
          ([], [], []) (ctrs.zip (resolvePfx pfxArg ctrs))).1.contains cn with
      | false => rfl
      | true =>
        exfalso
        have hmem := List.elem_iff.mp hx
        rcases mapContainersLoop_mem_strong tn (tab.colsDesc.map (fun nc => nc.1))
          ignore (ctrs.zip (resolvePfx pfxArg ctrs)) ([], [], []) cn hmem
          with h1 | ⟨h1, p, hp2, h3⟩
        · simp at h1
        · rw [hext p hp2] at h3
          exact Bool.noConfusion h3
    refine ⟨?_, ?_, ?_⟩
    · rw [hcr]
      exact hx0
    · rw [hlog]
      refine List.mem_append.mpr (Or.inr ?_)
      have hfold : (map_table_to_containers tn (tab.colsDesc.map (fun nc => nc.1))
          (ctrs.zip (resolvePfx pfxArg ctrs)) ignore).2.2 =
          (tab.colsDesc.map (fun nc => nc.1)).foldl (fun log colname =>
            if (mapContainersLoop tn (tab.colsDesc.map (fun nc => nc.1)) ignore
                ([], [], []) (ctrs.zip (resolvePfx pfxArg ctrs))).1.contains colname
            then log
            else log ++ [LogMsg.debugUnmappedCol tn colname])
          (mapContainersLoop tn (tab.colsDesc.map (fun nc => nc.1)) ignore
            ([], [], []) (ctrs.zip (resolvePfx pfxArg ctrs))).2.2 := rfl
      rw [hfold]
      exact unmappedFold_adds tn
        (mapContainersLoop tn (tab.colsDesc.map (fun nc => nc.1)) ignore ([], [], [])
          (ctrs.zip (resolvePfx pfxArg ctrs))).1 cn hx0
        (tab.colsDesc.map (fun nc => nc.1))
        (mapContainersLoop tn (tab.colsDesc.map (fun nc => nc.1)) ignore ([], [], [])
          (ctrs.zip (resolvePfx pfxArg ctrs))).2.2 hcn
    · intro cls hwmem
      rw [hlog] at hwmem
      rcases List.mem_append.mp hwmem with h1 | h1
      · exact h1
      · have hfold : (map_table_to_containers tn (tab.colsDesc.map (fun nc => nc.1))
            (ctrs.zip (resolvePfx pfxArg ctrs)) ignore).2.2 =
            (tab.colsDesc.map (fun nc => nc.1)).foldl (fun log colname =>
              if (mapContainersLoop tn (tab.colsDesc.map (fun nc => nc.1)) ignore
                  ([], [], []) (ctrs.zip (resolvePfx pfxArg ctrs))).1.contains colname
              then log
              else log ++ [LogMsg.debugUnmappedCol tn colname])
            (mapContainersLoop tn (tab.colsDesc.map (fun nc => nc.1)) ignore
              ([], [], []) (ctrs.zip (resolvePfx pfxArg ctrs))).2.2 := rfl
        rw [hfold] at h1
        rcases unmappedFold_mem_inv tn
          (mapContainersLoop tn (tab.colsDesc.map (fun nc => nc.1)) ignore
            ([], [], []) (ctrs.zip (resolvePfx pfxArg ctrs))).1
          (LogMsg.warnMissingCol tn cn cls)
          (tab.colsDesc.map (fun nc => nc.1))
          (mapContainersLoop tn (tab.colsDesc.map (fun nc => nc.1)) ignore
            ([], [], []) (ctrs.zip (resolvePfx pfxArg ctrs))).2.2 h1
          with h2 | ⟨c, hc2⟩
        · rcases mapContainersLoop_log_mem tn (tab.colsDesc.map (fun nc => nc.1))
            ignore (LogMsg.warnMissingCol tn cn cls)
            (ctrs.zip (resolvePfx pfxArg ctrs)) ([], [], []) h2
            with h3 | ⟨p, hp3, g, hg3, he3⟩ | ⟨a, b, c2, he3⟩
          · simp at h3
          · exfalso
            injection he3 with e1 e2 e3
            have h4 := hext p hp3
            rw [e2, stripPfx_addPfx] at h4
            exact Bool.noConfusion ((List.elem_iff.mpr hg3).symm.trans h4)
          · exact LogMsg.noConfusion he3
        · exact LogMsg.noConfusion hc2

/-- A one-row table with columns `x` and `extra` and no header attributes. -/
def c6Tab : TableOnDisk :=
  { colsDesc := [("x", { coltype := "Int64Col", pos := some 0 }),
                 ("extra", { coltype := "Int64Col", pos := some 1 })],
    attrs := [],
    rows := [[("x", .scalarV "int" 1), ("extra", .scalarV "int" 2)]] }

/-- A container class declaring `x` and a field `y` the table lacks. -/
def c6Ctr : ContainerType := { clsName := "C6", fields := ["x", "y"] }

/-- The reader state after setting `c6Tab` up for `c6Ctr`. -/
def c6RS1 : ReaderState :=
  { file := [("/t", c6Tab)],
    tables := ["/t"],
    cols_to_read := [("/t", ["x"])],
    missing_cols := [("/t", [["y"]])],
    metaTables := [("/t", [("C6", [])])],
    transforms := [("/t", [])],
    log := [.debugColNotInContainer "/t" "extra" "C6",
            .warnMissingCol "/t" "y" "C6",
            .debugUnmappedCol "/t" "extra"] }

/-- Witness for C6: the theorem applied to a concrete one-row table with a
missing field `y` and an unmapped extra column `extra`. -/
theorem c6_missing_extra_columns_witness :
    (∃ ms, ((c6RS1.missing_cols.lookup "/t").getD [])[0]? = some ms ∧ "y" ∈ ms) ∧
    (∀ ri : Bool, read (HDF5TableReader_init [("/t", c6Tab)]) "/t" [c6Ctr] ri
        PfxArg.noPfx (some []) =
      (c6RS1, c6Tab.rows.mapM (materializeRowItem
        ((c6RS1.cols_to_read.lookup "/t").getD [])
        ((c6RS1.transforms.lookup "/t").getD [])
        ([c6Ctr].zip ((resolvePfx PfxArg.noPfx [c6Ctr]).zip
          ((c6RS1.missing_cols.lookup "/t").getD [])))
        ((c6RS1.metaTables.lookup "/t").getD []) ri))) ∧
    (∀ items, c6Tab.rows.mapM (materializeRowItem
        ((c6RS1.cols_to_read.lookup "/t").getD [])
        ((c6RS1.transforms.lookup "/t").getD [])
        ([c6Ctr].zip ((resolvePfx PfxArg.noPfx [c6Ctr]).zip
          ((c6RS1.missing_cols.lookup "/t").getD [])))
        ((c6RS1.metaTables.lookup "/t").getD []) true) = .ok items →
      ∀ item ∈ items, ∃ recs rec, item = ReadItem.tuple recs ∧
        recs[0]? = some rec ∧ rec.fields.lookup "y" = some FieldInit.noneInit) ∧
    (c6RS1.log.count (LogMsg.warnMissingCol "/t" (addPfx "" "y") c6Ctr.clsName) =
      (HDF5TableReader_init [("/t", c6Tab)]).log.count
        (LogMsg.warnMissingCol "/t" (addPfx "" "y") c6Ctr.clsName) + 1) ∧
    (∀ cn, cn ∈ c6Tab.colsDesc.map (fun nc => nc.1) →
      (∀ p ∈ [c6Ctr].zip (resolvePfx PfxArg.noPfx [c6Ctr]),
        p.1.fields.contains (stripPfx p.2 cn) = false) →
      ((c6RS1.cols_to_read.lookup "/t").getD []).contains cn = false ∧
      LogMsg.debugUnmappedCol "/t" cn ∈ c6RS1.log ∧
      ∀ cls, LogMsg.warnMissingCol "/t" cn cls ∈ c6RS1.log →
        LogMsg.warnMissingCol "/t" cn cls ∈
          (HDF5TableReader_init [("/t", c6Tab)]).log) := by
  exact c6_missing_extra_columns (HDF5TableReader_init [("/t", c6Tab)]) c6RS1
    "/t" [c6Ctr] PfxArg.noPfx [] c6Tab 0 c6Ctr "" "y"
    (by rfl) (by rfl) (by rfl) (by rfl)
    (by decide) (by decide) (by rfl) (by rfl)
    (by
      intro j p hj hp
      cases j with
      | zero => exact absurd rfl hj
      | succ i =>
        have hnone : ([c6Ctr].zip (resolvePfx PfxArg.noPfx [c6Ctr]))[i + 1]? =
            (none : Option (ContainerType × String)) := by
          show ([(c6Ctr, "")] : List (ContainerType × String))[i + 1]? = none
          rw [List.getElem?_cons_succ, List.getElem?_nil]
        rw [hnone] at hp
        exact Option.noConfusion hp)

/-! ### Claim C1 -/

/-- Per-row field values for the round-trip container: a plain scalar, a
unit quantity (magnitude and unit), an enum code, a time, a fixed-size
array, and a bounded string. -/
structure C1Row where
  sx : ℚ
  qm : ℚ
  qu : String
  ec : ℚ
  tm : ℚ
  ad : List ℚ
  sv : String

/-- A field declaration with all defaults. -/
def c1Field0 : Field := {}

/-- The bounded-string field declaration (`max_length=8`). -/
def c1FieldStr : Field := { max_length := some 8 }

/-- One container instance of class `C` holding the six supported kinds. -/
def mkInst (en : String) (r : C1Row) : ContainerInstance :=
  { clsName := "C",
    items := [("s", c1Field0, .scalarV "int64" r.sx),
              ("q", c1Field0, .quantityV r.qm r.qu),
              ("e", c1Field0, .enumV en r.ec),
              ("t0", c1Field0, .timeV r.tm),
              ("a", c1Field0, .arrayV "float64" [2] r.ad),
              ("str", c1FieldStr, .strV r.sv)] }

/-- No exclusion patterns. -/
def c1Excl : String → String → Bool := fun _ _ => false

/-- The fresh writer (`mode="w"`, `group_name="g"`, no user transforms). -/
def c1W0 : WriterState :=
  { schemas := [], tables := [], transforms := [], file := [],
    group := "/g", excl := c1Excl, log := [] }

/-- The schema the writer builds for `mkInst`. -/
def c1Cols : List (String × ColDesc) :=
  [("s", { coltype := "Int64Col", pos := some 0 }),
   ("q", { coltype := "Float64Col", pos := some 1 }),
   ("e", { coltype := "Int64Col", pos := some 2 }),
   ("t0", { coltype := "Float64Col", pos := some 3 }),
   ("a", { coltype := "Float64Col", shape := [2], pos := some 4 }),
   ("str", { coltype := "StringCol", itemsize := some 8 })]

/-- The header attributes the writer persists (transform parameters under
the `{colname}_{SUFFIX}` convention, descriptions, and the version). -/
def c1Attrs (u0 en : String) : List (String × AttrVal) :=
  [("s_DESC", .strA ""), ("q_UNIT", .strA u0), ("q_DESC", .strA ""),
   ("e_ENUM", .strA en), ("e_DESC", .strA ""),
   ("t0_TIME_SCALE", .strA "tai"), ("t0_TIME_FORMAT", .strA "mjd"),
   ("t0_DESC", .strA ""), ("a_DESC", .strA ""),
   ("str_TRANSFORM", .strA "string"), ("str_MAXLEN", .intA 8),
   ("str_DESC", .strA ""), ("CTAPIPE_VERSION", .strA CTAPIPE_VERSION)]

/-- The write-direction transforms selected at schema-build time. -/
def c1Trs (u0 en : String) : List (String × ColumnTransform) :=
  [("q", .quantityTr u0), ("e", .enumTr en),
   ("t0", .timeTr "tai" "mjd"), ("str", .stringTr 8)]

/-- The table node as the writer leaves it, with `rows` accumulated. -/
def c1Tab (u0 en : String) (rows : List (List (String × Value))) : TableOnDisk :=
  { colsDesc := c1Cols, attrs := c1Attrs u0 en, rows := rows,
    title := "Storage of C" }

/-- One stored row: every value after its write-direction transform. -/
def c1StoredRow (u0 : String) (r : C1Row) : List (String × Value) :=
  [("s", .scalarV "int64" r.sx),
   ("q", .scalarV "float64" (convertUnit r.qm r.qu u0)),
   ("e", .scalarV "int" r.ec),
   ("t0", .scalarV "float64" r.tm),
   ("a", .arrayV "float64" [2] r.ad),
   ("str", .strV (utf8Truncate r.sv 8))]

/-- The writer's log after schema build. -/
def c1WLog : List LogMsg :=
  [.debugAddedCol "tbl" "s", .debugAddedCol "tbl" "q",
   .debugAddedCol "tbl" "e", .debugAddedCol "tbl" "t0",
   .debugAddedCol "tbl" "a", .debugAddedCol "tbl" "str"]

/-- The writer state once the table is set up and `rows` rows are stored. -/
def c1W (u0 en : String) (rows : List (List (String × Value))) : WriterState :=
  { schemas := [("tbl", c1Cols)], tables := [("tbl", "/g/tbl")],
    transforms := [("tbl", c1Trs u0 en)],
    file := [("/g/tbl", c1Tab u0 en rows)],
    group := "/g", excl := c1Excl, log := c1WLog }

theorem c1_first_write (en : String) (r : C1Row) :
    write c1W0 "tbl" [mkInst en r] = (c1W r.qu en [c1StoredRow r.qu r], none) := by
  have h1 : add_column_to_schema c1Excl "tbl"
      { columns := [], meta := [], transforms := [], log := [] } 0 c1Field0 "s"
      (.scalarV "int64" r.sx) =
      .ok { columns := [("s", { coltype := "Int64Col", pos := some 0 })],
            meta := [("s_DESC", .strA "")], transforms := [],
            log := [.debugAddedCol "tbl" "s"] } := rfl
  have h2 : add_column_to_schema c1Excl "tbl"
      { columns := [("s", { coltype := "Int64Col", pos := some 0 })],
        meta := [("s_DESC", .strA "")], transforms := [],
        log := [.debugAddedCol "tbl" "s"] } 1 c1Field0 "q"
      (.quantityV r.qm r.qu) =
      .ok { columns := [("s", { coltype := "Int64Col", pos := some 0 }),
                        ("q", { coltype := "Float64Col", pos := some 1 })],
            meta := [("s_DESC", .strA ""), ("q_UNIT", .strA r.qu),
                     ("q_DESC", .strA "")],
            transforms := [("q", .quantityTr r.qu)],
            log := [.debugAddedCol "tbl" "s", .debugAddedCol "tbl" "q"] } := rfl
  have h3 : add_column_to_schema c1Excl "tbl"
      { columns := [("s", { coltype := "Int64Col", pos := some 0 }),
                    ("q", { coltype := "Float64Col", pos := some 1 })],
        meta := [("s_DESC", .strA ""), ("q_UNIT", .strA r.qu),
                 ("q_DESC", .strA "")],
        transforms := [("q", .quantityTr r.qu)],
        log := [.debugAddedCol "tbl" "s", .debugAddedCol "tbl" "q"] } 2 c1Field0
      "e" (.enumV en r.ec) =
      .ok { columns := [("s", { coltype := "Int64Col", pos := some 0 }),
                        ("q", { coltype := "Float64Col", pos := some 1 }),
                        ("e", { coltype := "Int64Col", pos := some 2 })],
            meta := [("s_DESC", .strA ""), ("q_UNIT", .strA r.qu),
                     ("q_DESC", .strA ""), ("e_ENUM", .strA en),
                     ("e_DESC", .strA "")],
            transforms := [("q", .quantityTr r.qu), ("e", .enumTr en)],
            log := [.debugAddedCol "tbl" "s", .debugAddedCol "tbl" "q",
                    .debugAddedCol "tbl" "e"] } := rfl
  have h4 : add_column_to_schema c1Excl "tbl"
      { columns := [("s", { coltype := "Int64Col", pos := some 0 }),
                    ("q", { coltype := "Float64Col", pos := some 1 }),
                    ("e", { coltype := "Int64Col", pos := some 2 })],
        meta := [("s_DESC", .strA ""), ("q_UNIT", .strA r.qu),
                 ("q_DESC", .strA ""), ("e_ENUM", .strA en),
                 ("e_DESC", .strA "")],
        transforms := [("q", .quantityTr r.qu), ("e", .enumTr en)],
        log := [.debugAddedCol "tbl" "s", .debugAddedCol "tbl" "q",
                .debugAddedCol "tbl" "e"] } 3 c1Field0 "t0" (.timeV r.tm) =
      .ok { columns := [("s", { coltype := "Int64Col", pos := some 0 }),
                        ("q", { coltype := "Float64Col", pos := some 1 }),
                        ("e", { coltype := "Int64Col", pos := some 2 }),
                        ("t0", { coltype := "Float64Col", pos := some 3 })],
            meta := [("s_DESC", .strA ""), ("q_UNIT", .strA r.qu),
                     ("q_DESC", .strA ""), ("e_ENUM", .strA en),
                     ("e_DESC", .strA ""), ("t0_TIME_SCALE", .strA "tai"),
                     ("t0_TIME_FORMAT", .strA "mjd"), ("t0_DESC", .strA "")],
            transforms := [("q", .quantityTr r.qu), ("e", .enumTr en),
                           ("t0", .timeTr "tai" "mjd")],
            log := [.debugAddedCol "tbl" "s", .debugAddedCol "tbl" "q",
                    .debugAddedCol "tbl" "e", .debugAddedCol "tbl" "t0"] } := rfl
  have h5 : add_column_to_schema c1Excl "tbl"
      { columns := [("s", { coltype := "Int64Col", pos := some 0 }),
                    ("q", { coltype := "Float64Col", pos := some 1 }),
                    ("e", { coltype := "Int64Col", pos := some 2 }),
                    ("t0", { coltype := "Float64Col", pos := some 3 })],
        meta := [("s_DESC", .strA ""), ("q_UNIT", .strA r.qu),
                 ("q_DESC", .strA ""), ("e_ENUM", .strA en),
                 ("e_DESC", .strA ""), ("t0_TIME_SCALE", .strA "tai"),
                 ("t0_TIME_FORMAT", .strA "mjd"), ("t0_DESC", .strA "")],
        transforms := [("q", .quantityTr r.qu), ("e", .enumTr en),
                       ("t0", .timeTr "tai" "mjd")],
        log := [.debugAddedCol "tbl" "s", .debugAddedCol "tbl" "q",
                .debugAddedCol "tbl" "e", .debugAddedCol "tbl" "t0"] } 4 c1Field0
      "a" (.arrayV "float64" [2] r.ad) =
      .ok { columns := [("s", { coltype := "Int64Col", pos := some 0 }),
                        ("q", { coltype := "Float64Col", pos := some 1 }),
                        ("e", { coltype := "Int64Col", pos := some 2 }),
                        ("t0", { coltype := "Float64Col", pos := some 3 }),
                        ("a", { coltype := "Float64Col", shape := [2],
                                pos := some 4 })],
            meta := [("s_DESC", .strA ""), ("q_UNIT", .strA r.qu),
                     ("q_DESC", .strA ""), ("e_ENUM", .strA en),
                     ("e_DESC", .strA ""), ("t0_TIME_SCALE", .strA "tai"),
                     ("t0_TIME_FORMAT", .strA "mjd"), ("t0_DESC", .strA ""),
                     ("a_DESC", .strA "")],
            transforms := [("q", .quantityTr r.qu), ("e", .enumTr en),
                           ("t0", .timeTr "tai" "mjd")],
            log := [.debugAddedCol "tbl" "s", .debugAddedCol "tbl" "q",
                    .debugAddedCol "tbl" "e", .debugAddedCol "tbl" "t0",
                    .debugAddedCol "tbl" "a"] } := rfl
  have h6 : add_column_to_schema c1Excl "tbl"
      { columns := [("s", { coltype := "Int64Col", pos := some 0 }),
                    ("q", { coltype := "Float64Col", pos := some 1 }),
                    ("e", { coltype := "Int64Col", pos := some 2 }),
                    ("t0", { coltype := "Float64Col", pos := some 3 }),
                    ("a", { coltype := "Float64Col", shape := [2],
                            pos := some 4 })],
        meta := [("s_DESC", .strA ""), ("q_UNIT", .strA r.qu),
                 ("q_DESC", .strA ""), ("e_ENUM", .strA en),
                 ("e_DESC", .strA ""), ("t0_TIME_SCALE", .strA "tai"),
                 ("t0_TIME_FORMAT", .strA "mjd"), ("t0_DESC", .strA ""),
                 ("a_DESC", .strA "")],
        transforms := [("q", .quantityTr r.qu), ("e", .enumTr en),
                       ("t0", .timeTr "tai" "mjd")],
        log := [.debugAddedCol "tbl" "s", .debugAddedCol "tbl" "q",
                .debugAddedCol "tbl" "e", .debugAddedCol "tbl" "t0",
                .debugAddedCol "tbl" "a"] } 5 c1FieldStr "str" (.strV r.sv) =
      .ok { columns := c1Cols,
            meta := [("s_DESC", .strA ""), ("q_UNIT", .strA r.qu),
                     ("q_DESC", .strA ""), ("e_ENUM", .strA en),
                     ("e_DESC", .strA ""), ("t0_TIME_SCALE", .strA "tai"),
                     ("t0_TIME_FORMAT", .strA "mjd"), ("t0_DESC", .strA ""),
                     ("a_DESC", .strA ""), ("str_TRANSFORM", .strA "string"),
                     ("str_MAXLEN", .intA 8), ("str_DESC", .strA "")],
            transforms := c1Trs r.qu en,
            log := c1WLog } := rfl
  have hItems : schemaAddItems c1Excl "tbl" "C"
      ({ columns := [], meta := [], transforms := [], log := [] }, 0)
      [("s", c1Field0, .scalarV "int64" r.sx),
       ("q", c1Field0, .quantityV r.qm r.qu),
       ("e", c1Field0, .enumV en r.ec),
       ("t0", c1Field0, .timeV r.tm),
       ("a", c1Field0, .arrayV "float64" [2] r.ad),
       ("str", c1FieldStr, .strV r.sv)] =
      (({ columns := c1Cols,
          meta := [("s_DESC", .strA ""), ("q_UNIT", .strA r.qu),
                   ("q_DESC", .strA ""), ("e_ENUM", .strA en),
                   ("e_DESC", .strA ""), ("t0_TIME_SCALE", .strA "tai"),
                   ("t0_TIME_FORMAT", .strA "mjd"), ("t0_DESC", .strA ""),
                   ("a_DESC", .strA ""), ("str_TRANSFORM", .strA "string"),
                   ("str_MAXLEN", .intA 8), ("str_DESC", .strA "")],
          transforms := c1Trs r.qu en,
          log := c1WLog }, 6), none) := by
    simp [schemaAddItems, h1, h2, h3, h4, h5, h6]
  have hCont : schemaAddContainers c1Excl "tbl"
      ({ columns := [], meta := [], transforms := [], log := [] }, 0)
      [mkInst en r] =
      (({ columns := c1Cols,
          meta := [("s_DESC", .strA ""), ("q_UNIT", .strA r.qu),
                   ("q_DESC", .strA ""), ("e_ENUM", .strA en),
                   ("e_DESC", .strA ""), ("t0_TIME_SCALE", .strA "tai"),
                   ("t0_TIME_FORMAT", .strA "mjd"), ("t0_DESC", .strA ""),
                   ("a_DESC", .strA ""), ("str_TRANSFORM", .strA "string"),
                   ("str_MAXLEN", .intA 8), ("str_DESC", .strA "")],
          transforms := c1Trs r.qu en,
          log := c1WLog }, 6), none) := by
    simp [schemaAddContainers, mkInst, hItems]
  have hss : sStartsWith "tbl" "/" = false := rfl
  have hin : String.intercalate "," ["C"] = "C" := rfl
  have happ : ("Storage of " ++ "C" : String) = "Storage of C" := rfl
  have htp : tablePath "/g" "tbl" = "/g/tbl" := rfl
  have hcls : (mkInst en r).clsName = "C" := rfl
  have hmeta : (mkInst en r).meta = [] := rfl
  have hSetup : setup_new_table c1W0 "tbl" [mkInst en r] =
      (c1W r.qu en [], none) := by
    simp [setup_new_table, c1W0, hCont, hcls, hmeta, hss, hin, happ, htp,
      updateAttr, updMap, updateAttrs, CTAPIPE_VERSION,
      c1W, c1Tab, c1Cols, c1Attrs, c1Trs, c1WLog]
  unfold write
  rw [show (c1W0.schemas.lookup "tbl").isSome = false from rfl]
  rw [if_neg Bool.false_ne_true]
  rw [hSetup]
  show append_row (c1W r.qu en []) "tbl" [mkInst en r] =
    (c1W r.qu en [c1StoredRow r.qu r], none)
  exact rfl

theorem c1_next_write (u0 en : String) (rows : List (List (String × Value)))
    (r : C1Row) :
    write (c1W u0 en rows) "tbl" [mkInst en r] =
      (c1W u0 en (rows ++ [c1StoredRow u0 r]), none) := rfl

theorem c1_writeAll (u0 en : String) :
    ∀ (l : List C1Row) (rows : List (List (String × Value))),
    writeAll (c1W u0 en rows) "tbl" (l.map (fun r => [mkInst en r])) =
      (c1W u0 en (rows ++ l.map (c1StoredRow u0)), none) := by
  intro l
  induction l with
  | nil =>
    intro rows
    simp [writeAll]
  | cons r l2 ih =>
    intro rows
    simp only [List.map_cons]
    show writeAll (c1W u0 en rows) "tbl"
      ([mkInst en r] :: l2.map (fun r => [mkInst en r])) = _
    simp only [writeAll]
    rw [c1_next_write u0 en rows r]
    show writeAll (c1W u0 en (rows ++ [c1StoredRow u0 r])) "tbl"
      (l2.map (fun r => [mkInst en r])) = _
    rw [ih (rows ++ [c1StoredRow u0 r])]
    simp

theorem c1_write_side (en : String) (r0 : C1Row) (l : List C1Row) :
    writeAll c1W0 "tbl" ((r0 :: l).map (fun r => [mkInst en r])) =
      (c1W r0.qu en ((r0 :: l).map (c1StoredRow r0.qu)), none) := by
  simp only [List.map_cons]
  show writeAll c1W0 "tbl" ([mkInst en r0] :: l.map (fun r => [mkInst en r])) = _
  simp only [writeAll]
  rw [c1_first_write en r0]
  show writeAll (c1W r0.qu en [c1StoredRow r0.qu r0]) "tbl"
    (l.map (fun r => [mkInst en r])) = _
  rw [c1_writeAll r0.qu en l [c1StoredRow r0.qu r0]]
  rfl


/-- The matching container class for `mkInst`. -/
def c1Ctr : ContainerType :=
  { clsName := "C", fields := ["s", "q", "e", "t0", "a", "str"] }

/-- The metadata the reader attaches to class `C`'s records. -/
def c1MetaC (u0 en : String) : List (String × AttrVal) :=
  ((handle_metadata (c1Attrs u0 en) [(c1Ctr, "")]).lookup "C").getD []

/-- The reader state after setting the round-trip table up. -/
def c1RS1 (u0 en : String) (rows : List (List (String × Value))) : ReaderState :=
  { file := [("/g/tbl", c1Tab u0 en rows)],
    tables := ["/g/tbl"],
    cols_to_read := [("/g/tbl", ["s", "q", "e", "t0", "a", "str"])],
    missing_cols := [("/g/tbl", [[]])],
    metaTables := [("/g/tbl", handle_metadata (c1Attrs u0 en) [(c1Ctr, "")])],
    transforms := [("/g/tbl", c1Trs u0 en)],
    log := [] }

theorem c1_setup_read (u0 en : String) (rows : List (List (String × Value))) :
    setup_table (HDF5TableReader_init [("/g/tbl", c1Tab u0 en rows)]) "/g/tbl"
      [c1Ctr] [""] [] = .ok (c1RS1 u0 en rows, c1Tab u0 en rows) := by
  have hmap : map_table_to_containers "/g/tbl" ["s", "q", "e", "t0", "a", "str"]
      [(c1Ctr, "")] [] = (["s", "q", "e", "t0", "a", "str"], [[]], []) := by
    decide
  have htr : map_transforms_from_table_header (c1Tab u0 en rows) [] =
      .ok (c1Trs u0 en) := rfl
  have hlook : (HDF5TableReader_init
      [("/g/tbl", c1Tab u0 en rows)]).file.lookup "/g/tbl" =
      some (c1Tab u0 en rows) := rfl
  have hcols : (c1Tab u0 en rows).colsDesc.map (fun nc => nc.1) =
      ["s", "q", "e", "t0", "a", "str"] := rfl
  have hzip : ([c1Ctr].zip ([""] : List String)) = [(c1Ctr, "")] := rfl
  have hattrs : (c1Tab u0 en rows).attrs = c1Attrs u0 en := rfl
  simp [setup_table, HDF5TableReader_init, hlook, hcols, hzip, hattrs, hmap, htr,
    updMap, c1RS1]

/-- One record of the round-trip read, as the reconstructed inverse
transforms produce it. -/
def c1Rec (u0 en : String) (r : C1Row) : Record :=
  { clsName := "C", pfx := "",
    fields := [("s", .fromTable (.scalarV "int64" r.sx)),
               ("q", .fromTable (.quantityV (convertUnit r.qm r.qu u0) u0)),
               ("e", .fromTable (.enumV en r.ec)),
               ("t0", .fromTable (.timeV r.tm)),
               ("a", .fromTable (.arrayV "float64" [2] r.ad)),
               ("str", .fromTable (.strV (utf8Truncate r.sv 8)))],
    meta := c1MetaC u0 en }

theorem c1_materialize (u0 en : String) (r : C1Row) :
    materializeRowItem ["s", "q", "e", "t0", "a", "str"] (c1Trs u0 en)
      [(c1Ctr, "", [])] (handle_metadata (c1Attrs u0 en) [(c1Ctr, "")]) false
      (c1StoredRow u0 r) = .ok (.single (c1Rec u0 en r)) := rfl

theorem c1_read (u0 en : String) (rows : List (List (String × Value))) :
    read (HDF5TableReader_init [("/g/tbl", c1Tab u0 en rows)]) "/g/tbl" [c1Ctr]
      false PfxArg.noPfx none =
      (c1RS1 u0 en rows, rows.mapM (materializeRowItem
        ["s", "q", "e", "t0", "a", "str"] (c1Trs u0 en) [(c1Ctr, "", [])]
        (handle_metadata (c1Attrs u0 en) [(c1Ctr, "")]) false)) := by
  unfold read
  rw [show resolvePfx PfxArg.noPfx [c1Ctr] = [""] from rfl]
  rw [if_neg (by simp)]
  rw [show (HDF5TableReader_init
    [("/g/tbl", c1Tab u0 en rows)]).tables.contains "/g/tbl" = false from rfl]
  rw [if_neg Bool.false_ne_true]
  rw [show (Option.getD (none : Option (List String)) []) = ([] : List String)
    from rfl]
  rw [c1_setup_read u0 en rows]
  simp [c1RS1, c1Tab]


/-- The row loop maps every stored row through the reconstructed inverse
transforms, one fresh record per row. -/
theorem c1_mapM (u0 en : String) :
    ∀ (l : List C1Row),
    (l.map (c1StoredRow u0)).mapM (materializeRowItem
      ["s", "q", "e", "t0", "a", "str"] (c1Trs u0 en) [(c1Ctr, "", [])]
      (handle_metadata (c1Attrs u0 en) [(c1Ctr, "")]) false) =
      .ok (l.map (fun r => ReadItem.single (c1Rec u0 en r))) := by
  intro l
  induction l with
  | nil => rfl
  | cons r l2 ih =>
    simp only [List.map_cons, List.mapM_cons]
    rw [c1_materialize u0 en r, ih]
    rfl

/-- Reattaching the stored unit to the converted magnitude denotes the same
physical quantity as the original magnitude in its original unit. -/
theorem convertUnit_equiv (m : ℚ) (a b : String) :
    Value.equiv (.quantityV (convertUnit m a b) b) (.quantityV m a) := by
  show convertUnit m a b * unitFactor b = m * unitFactor a
  unfold convertUnit
  have hb : unitFactor b ≠ 0 := ne_of_gt (unitFactor_pos b)
  field_simp

/-- C1: Writer/reader round-trip — writing `N` instances of a container
whose fields are of the supported kinds (plain scalar, unit quantity, enum,
time, fixed-size array, bounded string) and reading the table back with the
matching record type yields `N` records whose field values equal the
originals: the read-direction transforms reconstructed from the persisted
header attributes invert the write-direction transforms selected at
schema-build time (units reattached with exact physical equality, enum
members restored, strings and arrays equal). -/
theorem c1_round_trip (en : String) (r0 : C1Row) (l : List C1Row)
    (hs : ∀ r ∈ r0 :: l, utf8Len r.sv ≤ 8) :
    ∃ w1, writeAll c1W0 "tbl" ((r0 :: l).map (fun r => [mkInst en r])) =
      (w1, none) ∧
    ∃ items, read (HDF5TableReader_init w1.file) "/g/tbl" [c1Ctr] false
        PfxArg.noPfx none =
      (c1RS1 r0.qu en ((r0 :: l).map (c1StoredRow r0.qu)), .ok items) ∧
    items.length = (r0 :: l).length ∧
    ∀ (i : Nat) (r : C1Row), (r0 :: l)[i]? = some r →
      ∃ rec, items[i]? = some (ReadItem.single rec) ∧
        rec.clsName = "C" ∧
        rec.fields.lookup "s" = some (.fromTable (.scalarV "int64" r.sx)) ∧
        (∃ v, rec.fields.lookup "q" = some (.fromTable v) ∧
          Value.equiv v (.quantityV r.qm r.qu)) ∧
        rec.fields.lookup "e" = some (.fromTable (.enumV en r.ec)) ∧
        rec.fields.lookup "t0" = some (.fromTable (.timeV r.tm)) ∧
        rec.fields.lookup "a" = some (.fromTable (.arrayV "float64" [2] r.ad)) ∧
        rec.fields.lookup "str" = some (.fromTable (.strV r.sv)) := by
  refine ⟨c1W r0.qu en ((r0 :: l).map (c1StoredRow r0.qu)),
    c1_write_side en r0 l,
    (r0 :: l).map (fun r => ReadItem.single (c1Rec r0.qu en r)), ?_, ?_, ?_⟩
  · have h := c1_read r0.qu en ((r0 :: l).map (c1StoredRow r0.qu))
    rw [c1_mapM r0.qu en (r0 :: l)] at h
    exact h
  · simp
  · intro i r hir
    have hmem : r ∈ r0 :: l := List.mem_iff_getElem?.mpr ⟨i, hir⟩
    have hitem : ((r0 :: l).map
        (fun r => ReadItem.single (c1Rec r0.qu en r)))[i]? =
        some (ReadItem.single (c1Rec r0.qu en r)) := by
      rw [List.getElem?_map, hir]
      rfl
    refine ⟨c1Rec r0.qu en r, hitem, rfl, rfl, ?_, rfl, rfl, rfl, ?_⟩
    · exact ⟨.quantityV (convertUnit r.qm r.qu r0.qu) r0.qu, rfl,
        convertUnit_equiv r.qm r.qu r0.qu⟩
    · have h8 : (c1Rec r0.qu en r).fields.lookup "str" =
          some (FieldInit.fromTable (Value.strV (utf8Truncate r.sv 8))) := rfl
      rw [utf8Truncate_of_le r.sv 8 (hs r hmem)] at h8
      exact h8

/-- A concrete row for the round-trip witness. -/
def c1DemoRow : C1Row :=
  { sx := 11, qm := 12, qu := "TeV", ec := 13, tm := 14, ad := [15, 16],
    sv := "ab" }

/-- Witness for C1: the round-trip theorem applied to one concrete row. -/
theorem c1_round_trip_witness :
    ∃ w1, writeAll c1W0 "tbl"
        (([c1DemoRow] : List C1Row).map (fun r => [mkInst "EN" r])) =
      (w1, none) ∧
    ∃ items, read (HDF5TableReader_init w1.file) "/g/tbl" [c1Ctr] false
        PfxArg.noPfx none =
      (c1RS1 c1DemoRow.qu "EN" ([c1DemoRow].map (c1StoredRow c1DemoRow.qu)),
        .ok items) ∧
    items.length = ([c1DemoRow] : List C1Row).length ∧
    ∀ (i : Nat) (r : C1Row), ([c1DemoRow] : List C1Row)[i]? = some r →
      ∃ rec, items[i]? = some (ReadItem.single rec) ∧
        rec.clsName = "C" ∧
        rec.fields.lookup "s" = some (.fromTable (.scalarV "int64" r.sx)) ∧
        (∃ v, rec.fields.lookup "q" = some (.fromTable v) ∧
          Value.equiv v (.quantityV r.qm r.qu)) ∧
        rec.fields.lookup "e" = some (.fromTable (.enumV "EN" r.ec)) ∧
        rec.fields.lookup "t0" = some (.fromTable (.timeV r.tm)) ∧
        rec.fields.lookup "a" = some (.fromTable (.arrayV "float64" [2] r.ad)) ∧
        rec.fields.lookup "str" = some (.fromTable (.strV r.sv)) :=
  c1_round_trip "EN" c1DemoRow [] (by decide)

end CtapipeHDF5

